import Mathlib

/-!
# Motion detection main loop (src/src/main.cpp)

A shallow embedding of the per-frame loop of `main` and of the kernel-size
normalisation of `parseArguments`.

Conventions
* C++ `int` values are integers; `++` and `+ 1` on an `int` wrap to the
  32-bit two's-complement range (`wrapInt`), `%` is the truncating remainder
  (`Int.tmod`).
* A `std::chrono::system_clock::time_point` is its tick count since the epoch,
  a signed 64-bit integer; the difference of two time points wraps to the
  64-bit two's-complement range (`wrapInt64`). The number of ticks in one
  second is the parameter `tps` (`system_clock::period` is fixed by the
  standard library in use).
* `double` values (`resizeFactor`, `minContourArea`, contour areas) are
  `Double`: NaN, the two infinities, or a finite value given as the rational
  number it denotes; only the comparisons `<` and `>=` are used, and they
  are false as soon as one side is NaN.
* OpenCV operations whose result is image content (resize, colour conversion,
  blur, background subtraction, threshold, erosion, dilation, contour
  tracing, contour area) are parameters of the model (`Vision`).
* Window output (`imshow`, `putText`, `rectangle`) never feeds back into the
  loop state and is left out; `waitKey` is the input `key`.
-/

namespace MotionDetection

/-! ## Geometry -/

/-- The `cv::Point` of OpenCV: integer pixel coordinates. -/
structure Point where
  x : Int
  y : Int
  deriving DecidableEq, Repr

/-- The `cv::Rect` of OpenCV: top-left corner and extent. -/
structure Rect where
  x : Int
  y : Int
  width : Int
  height : Int
  deriving DecidableEq, Repr

/-- Modelled from the spec: `cv::Rect::empty()` belongs to OpenCV, not to this
repository; a rectangle is empty when it is "empty, non-positive", that is when
its width or its height is not positive. -/
def Rect.empty (r : Rect) : Bool :=
  decide (r.width ≤ 0) || decide (r.height ≤ 0)

/-- The pixel `p` lies in the half-open rectangle `r` (the `cv::Rect::contains`
convention: left and top edges included, right and bottom edges excluded). -/
def Rect.contains (r : Rect) (p : Point) : Prop :=
  r.x ≤ p.x ∧ p.x < r.x + r.width ∧ r.y ≤ p.y ∧ p.y < r.y + r.height

instance (r : Rect) (p : Point) : Decidable (r.contains p) := by
  unfold Rect.contains
  infer_instance

/-- The rectangle `inner` lies entirely within `outer`. -/
def Rect.within (inner outer : Rect) : Prop :=
  outer.x ≤ inner.x ∧ inner.x + inner.width ≤ outer.x + outer.width ∧
  outer.y ≤ inner.y ∧ inner.y + inner.height ≤ outer.y + outer.height

instance (a b : Rect) : Decidable (a.within b) := by
  unfold Rect.within
  infer_instance

/-- Modelled from the spec: `operator&=` of `cv::Rect` belongs to OpenCV, not to
this repository; the spec calls it the intersection of the two rectangles
("clamp the configured ROI to the frame's bounds (intersection)"), and an
intersection without area is the default rectangle `Rect()`. -/
def Rect.inter (a b : Rect) : Rect :=
  let x1 := max a.x b.x
  let y1 := max a.y b.y
  let w := min (a.x + a.width) (b.x + b.width) - x1
  let h := min (a.y + a.height) (b.y + b.height) - y1
  if w ≤ 0 ∨ h ≤ 0 then ⟨0, 0, 0, 0⟩ else ⟨x1, y1, w, h⟩

/-- The rectangle `cv::Rect(0, 0, frame.cols, frame.rows)` of main.cpp. -/
def frameBounds (cols rows : Int) : Rect := ⟨0, 0, cols, rows⟩

/-- The body of `if (!roiInitialized) { ... }` in `main` (lines 231-239): the
effective ROI computed from `config.roi` and the frame's size. -/
def resolveRoi (roi : Rect) (cols rows : Int) : Rect :=
  let effectiveRoi := roi
  if effectiveRoi.width ≤ 0 ∨ effectiveRoi.height ≤ 0 then
    frameBounds cols rows
  else
    let effectiveRoi := effectiveRoi.inter (frameBounds cols rows)
    if effectiveRoi.empty then frameBounds cols rows else effectiveRoi

/-! ## Machine integers -/

/-- The value of a C++ `int` after an arithmetic result `n` is stored: the
representative of `n` modulo 2^32 in the range -2^31 .. 2^31 - 1. -/
def wrapInt (n : Int) : Int :=
  (n + 2147483648) % 4294967296 - 2147483648

/-- The largest C++ `int`. -/
def intMax : Int := 2147483647

/-- The smallest C++ `int`. -/
def intMin : Int := -2147483648

/-- The value of a signed 64-bit tick count after an arithmetic result `n` is
stored: the representative of `n` modulo 2^64 in the range -2^63 .. 2^63 - 1. -/
def wrapInt64 (n : Int) : Int :=
  (n + 9223372036854775808) % 18446744073709551616 - 9223372036854775808

/-- The largest signed 64-bit value. -/
def int64Max : Int := 9223372036854775807

/-- The smallest signed 64-bit value. -/
def int64Min : Int := -9223372036854775808

/-- A C++ `double` as far as comparisons see it: not-a-number, minus
infinity, a finite value (the rational number it denotes) or plus infinity.
`std::stod`, which reads `--min-area` and `--resize`, returns each of them. -/
inductive Double where
  | nan
  | negInf
  | fin (q : Rat)
  | posInf
  deriving DecidableEq

/-- The comparison `a < b` of two `double` values: false when one side is
NaN. -/
def Double.lt : Double → Double → Bool
  | Double.nan, _ => false
  | _, Double.nan => false
  | Double.negInf, Double.negInf => false
  | Double.negInf, _ => true
  | Double.fin _, Double.negInf => false
  | Double.fin a, Double.fin b => decide (a < b)
  | Double.fin _, Double.posInf => true
  | Double.posInf, _ => false

/-- The comparison `a >= b` of two `double` values: false when one side is
NaN. -/
def Double.ge : Double → Double → Bool
  | Double.nan, _ => false
  | _, Double.nan => false
  | Double.negInf, Double.negInf => true
  | Double.negInf, _ => false
  | Double.fin _, Double.negInf => true
  | Double.fin a, Double.fin b => decide (b ≤ a)
  | Double.fin _, Double.posInf => false
  | Double.posInf, _ => true

/-- The end of `parseArguments` (lines 132-134): an even `gaussianKernel` is
incremented. -/
def normalizeKernel (gaussianKernel : Int) : Int :=
  if Int.tmod gaussianKernel 2 = 0 then wrapInt (gaussianKernel + 1) else gaussianKernel

/-- The condition of the frame-skip branch of `main` (line 243), true when the
frame is skipped:
`config.frameSkip > 0 && (frameIndex % (config.frameSkip + 1) != 0)`. -/
def skipFrame (frameSkip frameIndex : Int) : Bool :=
  decide (frameSkip > 0) && decide (Int.tmod frameIndex (wrapInt (frameSkip + 1)) ≠ 0)

/-! ## Images -/

/-- The part of a `cv::Mat` the loop depends on: its size and, for a
single-channel 8-bit image, the value `px row col` of each pixel. -/
structure Mat where
  rows : Nat
  cols : Nat
  px : Int → Int → Nat

/-- Modelled from the spec: `cv::Mat::empty()` belongs to OpenCV, not to this
repository; an "empty frame" is one without pixels. -/
def Mat.empty (m : Mat) : Bool :=
  m.rows == 0 || m.cols == 0

/-- Modelled from the spec: `cv::Mat::zeros(size, CV_8UC1)` belongs to OpenCV;
it is the "all-false mask of full frame size". -/
def Mat.zeros (rows cols : Nat) : Mat :=
  ⟨rows, cols, fun _ _ => 0⟩

/-- Modelled from the spec: the bounds assertion of the sub-rectangle access
`m(roi)` of `cv::Mat` (OpenCV raises an exception when it fails): the rectangle
has non-negative extent and lies in `0 .. cols` by `0 .. rows`. -/
def Mat.roiInBounds (m : Mat) (roi : Rect) : Bool :=
  decide (0 ≤ roi.x ∧ 0 ≤ roi.width ∧ roi.x + roi.width ≤ (m.cols : Int) ∧
    0 ≤ roi.y ∧ 0 ≤ roi.height ∧ roi.y + roi.height ≤ (m.rows : Int))

/-- Line 277 of main.cpp, `src(roi).copyTo(dst(roi))`: the pixels of `src`
inside `roi` overwrite those of `dst`; `none` when a sub-rectangle access is
out of bounds (the exception of OpenCV). -/
def copyRoi (src dst : Mat) (roi : Rect) : Option Mat :=
  if src.roiInBounds roi && dst.roiInBounds roi then
    some { dst with px := fun row col =>
      if roi.contains ⟨col, row⟩ then src.px row col else dst.px row col }
  else
    none

/-- Modelled from the spec: `cv::boundingRect` belongs to OpenCV; it is "the
minimal axis-aligned bounding rectangle" of the pixels of a contour (a pixel
occupies one unit, hence the `+ 1`), and `Rect()` for no points. -/
def boundingRect : List Point → Rect
  | [] => ⟨0, 0, 0, 0⟩
  | p :: ps =>
    let xmin := ps.foldl (fun m q => min m q.x) p.x
    let xmax := ps.foldl (fun m q => max m q.x) p.x
    let ymin := ps.foldl (fun m q => min m q.y) p.y
    let ymax := ps.foldl (fun m q => max m q.y) p.y
    ⟨xmin, ymin, xmax - xmin + 1, ymax - ymin + 1⟩

/-- The OpenCV operations of the loop whose results are image content; they
are parameters of the model. `σ` is the state of the background subtractor. -/
structure Vision (σ : Type) where
  /-- The call `cv::resize(frame, frame, cv::Size(), f, f, cv::INTER_LINEAR)`. -/
  resize : Mat → Double → Mat
  /-- The call `cv::cvtColor(frame, gray, cv::COLOR_BGR2GRAY)`. -/
  cvtColor : Mat → Mat
  /-- The call `cv::GaussianBlur(gray, blurred, Size(k, k), 0)`. -/
  gaussianBlur : Mat → Int → Mat
  /-- The call `subtractor->apply(blurred, fgMask)`: new subtractor state and mask. -/
  apply : σ → Mat → σ × Mat
  /-- The call `cv::threshold(fgMask, thresholdMask, t, 255, cv::THRESH_BINARY)`. -/
  threshold : Mat → Int → Mat
  /-- The call `cv::erode(m, m, cv::Mat(), cv::Point(-1, -1), n)`. -/
  erode : Mat → Int → Mat
  /-- The call `cv::dilate(m, m, cv::Mat(), cv::Point(-1, -1), n)`. -/
  dilate : Mat → Int → Mat
  /-- The call `cv::findContours(m, contours, cv::RETR_EXTERNAL, cv::CHAIN_APPROX_SIMPLE)`. -/
  findContours : Mat → List (List Point)
  /-- The call `cv::contourArea(contour)`. -/
  contourArea : List Point → Double

/-- The contract of `cv::findContours` used by the loop: a contour is a
non-empty sequence of pixels of the image whose value is not zero. -/
def Vision.ContoursOnForeground {σ : Type} (cv : Vision σ) : Prop :=
  ∀ (m : Mat) (c : List Point), c ∈ cv.findContours m →
    c ≠ [] ∧ ∀ p ∈ c, 0 ≤ p.x ∧ p.x < (m.cols : Int) ∧ 0 ≤ p.y ∧ p.y < (m.rows : Int) ∧
      m.px p.y p.x ≠ 0

/-- The image operations between the frame and the thresholded mask keep the
size of the image. -/
def Vision.KeepsSize {σ : Type} (cv : Vision σ) : Prop :=
  (∀ m, (cv.cvtColor m).rows = m.rows ∧ (cv.cvtColor m).cols = m.cols) ∧
  (∀ m k, (cv.gaussianBlur m k).rows = m.rows ∧ (cv.gaussianBlur m k).cols = m.cols) ∧
  (∀ s m, (cv.apply s m).2.rows = m.rows ∧ (cv.apply s m).2.cols = m.cols) ∧
  (∀ m t, (cv.threshold m t).rows = m.rows ∧ (cv.threshold m t).cols = m.cols) ∧
  (∀ m n, (cv.erode m n).rows = m.rows ∧ (cv.erode m n).cols = m.cols) ∧
  (∀ m n, (cv.dilate m n).rows = m.rows ∧ (cv.dilate m n).cols = m.cols)

/-! ## Configuration and loop state -/

/-- The fields of `struct Config` that the loop reads. -/
structure Config where
  resizeFactor : Double := Double.fin 1
  frameSkip : Int := 0
  gaussianKernel : Int := 21
  thresholdValue : Int := 25
  dilateIterations : Int := 2
  erodeIterations : Int := 0
  minContourArea : Double := Double.fin 500
  saveSnapshots : Bool := false
  roi : Rect := ⟨0, 0, 0, 0⟩

/-- A line appended to the log stream. -/
inductive LogLine where
  /-- The line `<now>: snapshot saved to <filename>`. -/
  | snapshotSaved (now : Int)
  /-- The line `<now>: motion detected in <n> region(s).` -/
  | motionDetected (now : Int) (regions : Nat)
  deriving DecidableEq, Repr

/-- The variables of `main` that live across loop iterations, with the
outputs written so far: `snapshots` holds the time of each `cv::imwrite`,
`logLines` the lines written to `logStream` (oldest first). -/
structure LoopState (σ : Type) where
  subtractor : σ
  effectiveRoi : Rect
  roiInitialized : Bool
  motionDetected : Bool
  frameIndex : Int
  lastSnapshotTime : Int
  snapshots : List Int
  logLines : List LogLine
  deriving DecidableEq

/-- The state at loop entry (lines 213-217). `lastSnapshotTime` is
`system_clock::from_time_t(0)`, tick 0. -/
def LoopState.init {σ : Type} (subtractor : σ) : LoopState σ :=
  { subtractor := subtractor
    effectiveRoi := ⟨0, 0, 0, 0⟩
    roiInitialized := false
    motionDetected := false
    frameIndex := 0
    lastSnapshotTime := 0
    snapshots := []
    logLines := [] }

/-- What one loop iteration receives from outside: the frame read by
`capture.read`, the value of `system_clock::now()` and the key of
`cv::waitKey(1)`. -/
structure FrameInput where
  frame : Mat
  now : Int
  key : Int

/-- How a loop iteration ends: the loop goes on, the loop is left (`break`),
or an OpenCV exception leaves `main`. -/
inductive Flow where
  | next
  | exit
  | raised
  deriving DecidableEq, Repr

/-! ## The loop body -/

/-- Lines 226-228: the frame is resized when `0 < resizeFactor < 1`. -/
def resizeStep {σ : Type} (cfg : Config) (cv : Vision σ) (frame : Mat) : Mat :=
  if Double.lt (Double.fin 0) cfg.resizeFactor && Double.lt cfg.resizeFactor (Double.fin 1) then
    cv.resize frame cfg.resizeFactor
  else frame

/-- Lines 230-241: the one-time resolution of the effective ROI. -/
def roiInitStep {σ : Type} (cfg : Config) (frame : Mat) (s : LoopState σ) : LoopState σ :=
  if !s.roiInitialized then
    { s with effectiveRoi := resolveRoi cfg.roi frame.cols frame.rows, roiInitialized := true }
  else
    s

/-- Lines 282-290: the boxes of the contours that pass the area filter. -/
def motionBoxes (contourArea : List Point → Double) (minContourArea : Double) :
    List (List Point) → List Rect
  | [] => []
  | contour :: rest =>
    if Double.lt (contourArea contour) minContourArea then
      motionBoxes contourArea minContourArea rest
    else
      boundingRect contour :: motionBoxes contourArea minContourArea rest

/-- The values computed for a processed frame (lines 256-292). -/
structure Detection (σ : Type) where
  subtractor : σ
  thresholdMask : Mat
  roiMask : Mat
  contours : List (List Point)
  motionBoxes : List Rect
  motionDetected : Bool

/-- Lines 256-274: grey conversion, blur, background subtraction, threshold,
erosion and dilation: the new subtractor state and `thresholdMask`. -/
def thresholdStage {σ : Type} (cfg : Config) (cv : Vision σ) (subtractor : σ) (frame : Mat) :
    σ × Mat :=
  let gray := cv.cvtColor frame
  let blurred := cv.gaussianBlur gray cfg.gaussianKernel
  let applied := cv.apply subtractor blurred
  let fgMask := applied.2
  let thresholdMask := cv.threshold fgMask cfg.thresholdValue
  let thresholdMask :=
    if cfg.erodeIterations > 0 then cv.erode thresholdMask cfg.erodeIterations else thresholdMask
  let thresholdMask :=
    if cfg.dilateIterations > 0 then cv.dilate thresholdMask cfg.dilateIterations
    else thresholdMask
  (applied.1, thresholdMask)

/-- Lines 256-292: the threshold stage, then the ROI mask, the contours, the
boxes and the motion verdict. `none` when the sub-rectangle access of line 277
is out of bounds. -/
def detect {σ : Type} (cfg : Config) (cv : Vision σ) (subtractor : σ) (effectiveRoi : Rect)
    (frame : Mat) : Option (Detection σ) :=
  let staged := thresholdStage cfg cv subtractor frame
  let thresholdMask := staged.2
  let roiMask := Mat.zeros thresholdMask.rows thresholdMask.cols
  match copyRoi thresholdMask roiMask effectiveRoi with
  | none => none
  | some roiMask =>
    let contours := cv.findContours roiMask
    let boxes := motionBoxes cv.contourArea cfg.minContourArea contours
    some { subtractor := staged.1
           thresholdMask := thresholdMask
           roiMask := roiMask
           contours := contours
           motionBoxes := boxes
           motionDetected := !boxes.isEmpty }

/-- Lines 303-320, the snapshot throttle: whether a snapshot is written for
this frame, and the new `lastSnapshotTime`. The difference of the two time
points is a 64-bit tick count; `duration_cast<seconds>` truncates it toward
zero. -/
def snapshotDecision (saveSnapshots : Bool) (tps : Int) (motionDetected : Bool)
    (now lastSnapshotTime : Int) : Bool × Int :=
  if motionDetected then
    if saveSnapshots then
      let sinceLastSnapshot := Int.tdiv (wrapInt64 (now - lastSnapshotTime)) tps
      if sinceLastSnapshot ≥ 1 then (true, now) else (false, lastSnapshotTime)
    else
      (false, lastSnapshotTime)
  else
    (false, lastSnapshotTime)

/-- Lines 249-252 and 331-334: Escape (27) or `q` (113) leaves the loop. -/
def keyFlow (key : Int) : Flow :=
  if key = 27 ∨ key = 113 then Flow.exit else Flow.next

/-- One iteration of the `while` loop of `main` (lines 220-335), for a frame
that `capture.read` delivered. `logOpen` is the truth value of `logStream`.
When line 277 throws, `subtractor->apply` of line 264 has already run. -/
def loopBody {σ : Type} (cfg : Config) (cv : Vision σ) (tps : Int) (logOpen : Bool)
    (s : LoopState σ) (inp : FrameInput) : Flow × LoopState σ :=
  if inp.frame.empty then (Flow.exit, s)
  else
    let s := { s with frameIndex := wrapInt (s.frameIndex + 1) }
    let frame := resizeStep cfg cv inp.frame
    let s := roiInitStep cfg frame s
    if skipFrame cfg.frameSkip s.frameIndex then
      (keyFlow inp.key, s)
    else
      match detect cfg cv s.subtractor s.effectiveRoi frame with
      | none =>
        (Flow.raised, { s with subtractor := (thresholdStage cfg cv s.subtractor frame).1 })
      | some d =>
        let s := { s with subtractor := d.subtractor, motionDetected := d.motionDetected }
        let now := inp.now
        let fire := snapshotDecision cfg.saveSnapshots tps s.motionDetected now s.lastSnapshotTime
        let s :=
          if fire.1 then
            { s with
              lastSnapshotTime := fire.2
              snapshots := s.snapshots ++ [now]
              logLines := if logOpen then s.logLines ++ [LogLine.snapshotSaved now]
                          else s.logLines }
          else s
        let s :=
          if logOpen && s.motionDetected then
            { s with logLines := s.logLines ++ [LogLine.motionDetected now d.motionBoxes.length] }
          else s
        (keyFlow inp.key, s)

/-- The states after each executed iteration of the loop over the frames that
`capture.read` delivers, in order; the loop stops at the first iteration
that does not end with `Flow.next`. -/
def loopTrace {σ : Type} (cfg : Config) (cv : Vision σ) (tps : Int) (logOpen : Bool) :
    LoopState σ → List FrameInput → List (Flow × LoopState σ)
  | _, [] => []
  | s, inp :: rest =>
    let r := loopBody cfg cv tps logOpen s inp
    match r.1 with
    | Flow.next => r :: loopTrace cfg cv tps logOpen r.2 rest
    | _ => [r]

/-- The snapshot throttle run over the processed frames of a run, each given
by its motion verdict and its time: whether each frame fired a snapshot. -/
def throttleRun (saveSnapshots : Bool) (tps : Int) :
    Int → List (Bool × Int) → List Bool
  | _, [] => []
  | lastSnapshotTime, (motionDetected, now) :: rest =>
    let fire := snapshotDecision saveSnapshots tps motionDetected now lastSnapshotTime
    fire.1 :: throttleRun saveSnapshots tps fire.2 rest

/-- The state in which the frame-skip test and the pipeline run: the frame
counter incremented and the ROI resolved. -/
def enterFrame {σ : Type} (cfg : Config) (cv : Vision σ) (s : LoopState σ)
    (inp : FrameInput) : LoopState σ :=
  roiInitStep cfg (resizeStep cfg cv inp.frame)
    { s with frameIndex := wrapInt (s.frameIndex + 1) }

/-- The state after a processed frame whose pipeline produced `d`. -/
def afterDetection {σ : Type} (cfg : Config) (tps : Int) (logOpen : Bool) (s : LoopState σ)
    (now : Int) (d : Detection σ) : LoopState σ :=
  let fire := snapshotDecision cfg.saveSnapshots tps d.motionDetected now s.lastSnapshotTime
  { subtractor := d.subtractor
    effectiveRoi := s.effectiveRoi
    roiInitialized := s.roiInitialized
    motionDetected := d.motionDetected
    frameIndex := s.frameIndex
    lastSnapshotTime := fire.2
    snapshots := if fire.1 then s.snapshots ++ [now] else s.snapshots
    logLines :=
      (if fire.1 && logOpen then s.logLines ++ [LogLine.snapshotSaved now] else s.logLines) ++
        (if logOpen && d.motionDetected then [LogLine.motionDetected now d.motionBoxes.length]
         else []) }

/-! ## A concrete instance -/

/-- A small instance of the image operations, for evaluating the loop on
concrete frames: images pass unchanged through resize, grey conversion, blur,
erosion and dilation; the subtractor counts its calls and returns the image
as mask; the threshold is binary with maximum 255; every non-zero pixel is a
contour of its own, and the area of a contour is its number of points. -/
def sampleVision : Vision Nat where
  resize := fun m _ => m
  cvtColor := fun m => m
  gaussianBlur := fun m _ => m
  apply := fun n m => (n + 1, m)
  threshold := fun m t => { m with px := fun r c => if t < (m.px r c : Int) then 255 else 0 }
  erode := fun m _ => m
  dilate := fun m _ => m
  findContours := fun m =>
    (List.range m.rows).flatMap fun (r : Nat) =>
      (List.range m.cols).filterMap fun (c : Nat) =>
        if m.px (r : Int) (c : Int) ≠ 0 then some [⟨(c : Int), (r : Int)⟩] else none
  contourArea := fun c => Double.fin (c.length : Rat)

/-- A configuration with snapshots enabled, a frame skip of 2, a minimum
area of 1 and an ROI that overhangs the frame on the left. -/
def sampleConfig : Config :=
  { frameSkip := 2, minContourArea := Double.fin 1, saveSnapshots := true,
    roi := ⟨-2, 1, 6, 3⟩ }

/-- An 8 by 6 frame that is dark except for the pixels of row 2, columns 1
to 5. -/
def sampleFrame : Mat :=
  ⟨6, 8, fun r c => if r = 2 ∧ 1 ≤ c ∧ c ≤ 5 then 200 else 0⟩

/-- The loop state before the third frame of a run: two frames were skipped,
the ROI is resolved, no snapshot was written. -/
def sampleState : LoopState Nat :=
  { subtractor := 0
    effectiveRoi := ⟨0, 1, 4, 3⟩
    roiInitialized := true
    motionDetected := false
    frameIndex := 2
    lastSnapshotTime := 0
    snapshots := []
    logLines := [] }

/-- The frame `sampleFrame` read at 1.5 s after the epoch (nanosecond ticks),
no key pressed. -/
def sampleInput : FrameInput :=
  ⟨sampleFrame, 1500000000, -1⟩

/-- The frame `sampleFrame` read half a second after the epoch (nanosecond
ticks), no key pressed. -/
def earlyInput : FrameInput :=
  ⟨sampleFrame, 500000000, -1⟩

/-- The snapshots written so far are pairwise at least one second apart and
none is later than `lastSnapshotTime`. -/
def SnapshotsSpaced {σ : Type} (tps : Int) (s : LoopState σ) : Prop :=
  List.Pairwise (fun a b => b - a ≥ tps) s.snapshots ∧ ∀ a ∈ s.snapshots, a ≤ s.lastSnapshotTime

/-- The configuration `sampleConfig` after `--min-area nan`. -/
def nanConfig : Config :=
  { sampleConfig with minContourArea := Double.nan }

/-- The state `sampleState` with a snapshot last written at 9 * 10^18 ticks
(a representable 64-bit tick count). -/
def lateState : LoopState Nat :=
  { sampleState with lastSnapshotTime := 9000000000000000000, snapshots := [9000000000000000000] }

/-- The frame `sampleFrame` read at -9 * 10^18 ticks (a representable 64-bit
tick count), no key pressed. -/
def wrappedInput : FrameInput :=
  ⟨sampleFrame, -9000000000000000000, -1⟩

/-! # Theorems -/

/-! ## Machine integers: lemmas -/

theorem wrapInt_of_range (n : Int) (h1 : intMin ≤ n) (h2 : n ≤ intMax) : wrapInt n = n := by
  unfold wrapInt
  unfold intMin at h1
  unfold intMax at h2
  omega

theorem tmod_of_nonneg (a b : Int) (ha : 0 ≤ a) (hb : 0 < b) : Int.tmod a b = a % b := by
  rw [Int.tmod_eq_emod ha (le_of_lt hb)]

/-! ## Kernel-size normalisation -/

/-- C10. For every C++ `int` value `k` of `gaussianKernel`, the value after the
normalisation at the end of `parseArguments` is odd (also in the C++ sense
`% 2 != 0`), is at least `k`, is again a C++ `int`, equals `k` when `k` is odd
and `k + 1` when `k` is even. -/
theorem normalizeKernel_odd_ge (k : Int) (hlo : intMin ≤ k) (hhi : k ≤ intMax) :
    Odd (normalizeKernel k) ∧ Int.tmod (normalizeKernel k) 2 ≠ 0 ∧ k ≤ normalizeKernel k ∧
      (intMin ≤ normalizeKernel k ∧ normalizeKernel k ≤ intMax) ∧
      (Odd k → normalizeKernel k = k) ∧ (Even k → normalizeKernel k = k + 1) := by
  have hodd : ∀ n : Int, Odd n ↔ n % 2 = 1 := fun n => Int.odd_iff
  have heven : ∀ n : Int, Even n ↔ n % 2 = 0 := fun n => Int.even_iff
  have htm : ∀ n : Int, Int.tmod n 2 = 0 ↔ n % 2 = 0 := by
    intro n
    have h1 := Int.tmod_add_tdiv n 2
    constructor
    · intro h; omega
    · intro h
      have h2 : (2 : Int) ∣ n := Int.dvd_of_emod_eq_zero h
      exact Int.tmod_eq_zero_of_dvd h2
  unfold intMin at hlo
  unfold intMax at hhi
  by_cases hk : Int.tmod k 2 = 0
  · have hk2 : k % 2 = 0 := (htm k).1 hk
    have hw : wrapInt (k + 1) = k + 1 := by
      apply wrapInt_of_range <;> simp only [intMin, intMax] <;> omega
    have hn : normalizeKernel k = k + 1 := by
      unfold normalizeKernel
      rw [if_pos hk, hw]
    rw [hn]
    refine ⟨(hodd _).2 (by omega), ?_, by omega, ⟨by simp only [intMin]; omega,
      by simp only [intMax]; omega⟩, ?_, fun _ => rfl⟩
    · intro h
      have := (htm (k + 1)).1 h
      omega
    · intro h
      have := (hodd k).1 h
      omega
  · have hk2 : k % 2 = 1 := by
      have : ¬ k % 2 = 0 := fun h => hk ((htm k).2 h)
      omega
    have hn : normalizeKernel k = k := by
      unfold normalizeKernel
      rw [if_neg hk]
    rw [hn]
    refine ⟨(hodd _).2 hk2, hk, le_refl _, ⟨by simp only [intMin]; omega,
      by simp only [intMax]; omega⟩, fun _ => rfl, ?_⟩
    intro h
    have := (heven k).1 h
    omega

theorem normalizeKernel_odd_ge_witness :
    (intMin ≤ 20 ∧ (20 : Int) ≤ intMax) ∧ normalizeKernel 20 = 21 ∧ Odd (normalizeKernel 20) :=
  ⟨by decide, by decide, (normalizeKernel_odd_ge 20 (by decide) (by decide)).1⟩

/-! ## Frame-skip gate -/

/-- C4. For every frame index `i ≥ 1` (the value of `frameIndex` after the
increment) and every skip count `s ≥ 0`, both C++ `int` values, the frame-skip
branch is not taken (the frame is processed) exactly when `s = 0` or
`i mod (s + 1) = 0`; every frame is processed when `s = 0`, and with `s = 2`
exactly the multiples of 3 are processed. -/
theorem frameSkip_gate (i s : Int) (hi : 1 ≤ i) (hi2 : i ≤ intMax) (hs : 0 ≤ s)
    (hs2 : s ≤ intMax) :
    (skipFrame s i = false ↔ (s = 0 ∨ i % (s + 1) = 0)) ∧
      skipFrame 0 i = false ∧ (skipFrame 2 i = false ↔ (3 : Int) ∣ i) := by
  unfold intMax at hi2 hs2
  have key : ∀ t : Int, 0 < t → t < 2147483647 →
      (skipFrame t i = false ↔ i % (t + 1) = 0) := by
    intro t ht0 ht1
    have hw : wrapInt (t + 1) = t + 1 := by
      apply wrapInt_of_range <;> simp only [intMin, intMax] <;> omega
    have htm : Int.tmod i (t + 1) = i % (t + 1) := tmod_of_nonneg i (t + 1) (by omega) (by omega)
    simp [skipFrame, hw, htm, ht0]
  refine ⟨?_, by simp [skipFrame], ?_⟩
  · rcases eq_or_lt_of_le hs with h0 | hpos
    · subst h0
      simp [skipFrame]
    · rcases eq_or_lt_of_le hs2 with hmax | hlt
      · subst hmax
        have hw : wrapInt (2147483647 + 1) = -2147483648 := by decide
        have htm : Int.tmod i (-2147483648) = i := by
          rw [Int.tmod_neg, tmod_of_nonneg i 2147483648 (by omega) (by omega)]
          omega
        have hne : ¬ i % (2147483647 + 1) = 0 := by omega
        have hi0 : i ≠ 0 := by omega
        have hsk : skipFrame 2147483647 i = true := by
          unfold skipFrame
          rw [hw, htm]
          simp [hi0]
        rw [hsk]
        constructor
        · intro h; cases h
        · rintro (h | h)
          · omega
          · exact absurd h hne
      · rw [key s hpos hlt]
        constructor
        · intro h; exact Or.inr h
        · rintro (h | h)
          · omega
          · exact h
  · rw [key 2 (by omega) (by omega)]
    constructor
    · intro h; exact Int.dvd_of_emod_eq_zero h
    · intro h; exact Int.emod_eq_zero_of_dvd h

theorem frameSkip_gate_witness :
    skipFrame 2 3 = false ∧ skipFrame 2 4 = true ∧ (skipFrame 2 6 = false ↔ (3 : Int) ∣ 6) :=
  ⟨by decide, by decide,
    (frameSkip_gate 6 2 (by decide) (by decide) (by decide) (by decide)).2.2⟩

/-! ## ROI resolution -/

theorem Rect.inter_frame (R : Rect) (cols rows : Int) :
    R.inter (frameBounds cols rows) =
      if min (R.x + R.width) cols - max R.x 0 ≤ 0 ∨ min (R.y + R.height) rows - max R.y 0 ≤ 0
      then ⟨0, 0, 0, 0⟩
      else ⟨max R.x 0, max R.y 0, min (R.x + R.width) cols - max R.x 0,
        min (R.y + R.height) rows - max R.y 0⟩ := by
  simp [Rect.inter, frameBounds]

/-- The pixels shared by `R` and the frame exist exactly when the clamped
extent is positive in both directions. -/
theorem exists_common_pixel_iff (R : Rect) (cols rows : Int) :
    (∃ p, R.contains p ∧ (frameBounds cols rows).contains p) ↔
      0 < min (R.x + R.width) cols - max R.x 0 ∧
        0 < min (R.y + R.height) rows - max R.y 0 := by
  constructor
  · rintro ⟨p, hR, hF⟩
    simp only [Rect.contains, frameBounds] at hR hF
    omega
  · intro h
    refine ⟨⟨max R.x 0, max R.y 0⟩, ?_, ?_⟩ <;> simp only [Rect.contains, frameBounds] <;> omega

/-- C1. For every configured rectangle `R` and every frame of `cols > 0` by
`rows > 0` pixels, the effective ROI computed on the first frame is the
intersection of `R` with the frame bounds `F` when they share a pixel (it holds
exactly the shared pixels, and is the clamped rectangle), and is `F`
otherwise; in both cases it has positive width and height. -/
theorem resolveRoi_inter_or_frame (R : Rect) (cols rows : Int) (hc : 0 < cols)
    (hr : 0 < rows) :
    ((∃ p, R.contains p ∧ (frameBounds cols rows).contains p) →
      (∀ p, (resolveRoi R cols rows).contains p ↔
        (R.contains p ∧ (frameBounds cols rows).contains p)) ∧
      resolveRoi R cols rows = ⟨max R.x 0, max R.y 0,
        min (R.x + R.width) cols - max R.x 0, min (R.y + R.height) rows - max R.y 0⟩) ∧
    (¬ (∃ p, R.contains p ∧ (frameBounds cols rows).contains p) →
      resolveRoi R cols rows = frameBounds cols rows) ∧
    0 < (resolveRoi R cols rows).width ∧ 0 < (resolveRoi R cols rows).height := by
  rw [exists_common_pixel_iff]
  by_cases hR : R.width ≤ 0 ∨ R.height ≤ 0
  · have hE : resolveRoi R cols rows = frameBounds cols rows := by
      simp only [resolveRoi, if_pos hR]
    rw [hE]
    refine ⟨fun h => ?_, fun _ => rfl, hc, hr⟩
    omega
  · by_cases hI : min (R.x + R.width) cols - max R.x 0 ≤ 0 ∨
        min (R.y + R.height) rows - max R.y 0 ≤ 0
    · have hE : resolveRoi R cols rows = frameBounds cols rows := by
        simp only [resolveRoi, if_neg hR, Rect.inter_frame, if_pos hI]
        simp [Rect.empty]
      rw [hE]
      refine ⟨fun h => ?_, fun _ => rfl, hc, hr⟩
      omega
    · have hE : resolveRoi R cols rows = ⟨max R.x 0, max R.y 0,
          min (R.x + R.width) cols - max R.x 0, min (R.y + R.height) rows - max R.y 0⟩ := by
        simp only [resolveRoi, if_neg hR, Rect.inter_frame, if_neg hI]
        have h1 : ¬ (min (R.x + R.width) cols - max R.x 0 ≤ 0) := fun h => hI (Or.inl h)
        have h2 : ¬ (min (R.y + R.height) rows - max R.y 0 ≤ 0) := fun h => hI (Or.inr h)
        simp [Rect.empty, h1, h2]
      rw [hE]
      refine ⟨fun _ => ⟨fun p => ?_, rfl⟩, fun h => ?_, ?_, ?_⟩
      · simp only [Rect.contains, frameBounds]
        omega
      · omega
      · show 0 < min (R.x + R.width) cols - max R.x 0
        omega
      · show 0 < min (R.y + R.height) rows - max R.y 0
        omega

theorem resolveRoi_inter_or_frame_witness :
    resolveRoi ⟨-5, 10, 20, 100⟩ 64 48 = ⟨0, 10, 15, 38⟩ ∧
      resolveRoi ⟨70, 10, 20, 20⟩ 64 48 = ⟨0, 0, 64, 48⟩ ∧
      resolveRoi ⟨3, 4, 0, 7⟩ 64 48 = ⟨0, 0, 64, 48⟩ ∧
      0 < (resolveRoi ⟨-5, 10, 20, 100⟩ 64 48).width :=
  ⟨by decide, by decide, by decide,
    (resolveRoi_inter_or_frame ⟨-5, 10, 20, 100⟩ 64 48 (by decide) (by decide)).2.2.1⟩

/-! ## The loop body: which branch runs -/

theorem roiInitStep_fields {σ : Type} (cfg : Config) (frame : Mat) (s : LoopState σ) :
    (roiInitStep cfg frame s).subtractor = s.subtractor ∧
      (roiInitStep cfg frame s).motionDetected = s.motionDetected ∧
      (roiInitStep cfg frame s).frameIndex = s.frameIndex ∧
      (roiInitStep cfg frame s).lastSnapshotTime = s.lastSnapshotTime ∧
      (roiInitStep cfg frame s).snapshots = s.snapshots ∧
      (roiInitStep cfg frame s).logLines = s.logLines ∧
      (roiInitStep cfg frame s).roiInitialized = true ∧
      (roiInitStep cfg frame s).effectiveRoi =
        (if s.roiInitialized then s.effectiveRoi
         else resolveRoi cfg.roi frame.cols frame.rows) := by
  unfold roiInitStep
  cases h : s.roiInitialized <;> simp [h]

theorem enterFrame_fields {σ : Type} (cfg : Config) (cv : Vision σ) (s : LoopState σ)
    (inp : FrameInput) :
    (enterFrame cfg cv s inp).subtractor = s.subtractor ∧
      (enterFrame cfg cv s inp).motionDetected = s.motionDetected ∧
      (enterFrame cfg cv s inp).frameIndex = wrapInt (s.frameIndex + 1) ∧
      (enterFrame cfg cv s inp).lastSnapshotTime = s.lastSnapshotTime ∧
      (enterFrame cfg cv s inp).snapshots = s.snapshots ∧
      (enterFrame cfg cv s inp).logLines = s.logLines ∧
      (enterFrame cfg cv s inp).roiInitialized = true ∧
      (enterFrame cfg cv s inp).effectiveRoi =
        (if s.roiInitialized then s.effectiveRoi
         else resolveRoi cfg.roi (resizeStep cfg cv inp.frame).cols
           (resizeStep cfg cv inp.frame).rows) := by
  unfold enterFrame
  exact roiInitStep_fields cfg _ _

theorem loopBody_empty {σ : Type} (cfg : Config) (cv : Vision σ) (tps : Int) (logOpen : Bool)
    (s : LoopState σ) (inp : FrameInput) (he : inp.frame.empty = true) :
    loopBody cfg cv tps logOpen s inp = (Flow.exit, s) := by
  simp [loopBody, he]

theorem loopBody_skipped {σ : Type} (cfg : Config) (cv : Vision σ) (tps : Int)
    (logOpen : Bool) (s : LoopState σ) (inp : FrameInput) (he : inp.frame.empty = false)
    (hskip : skipFrame cfg.frameSkip (wrapInt (s.frameIndex + 1)) = true) :
    loopBody cfg cv tps logOpen s inp = (keyFlow inp.key, enterFrame cfg cv s inp) := by
  have hfi := (enterFrame_fields cfg cv s inp).2.2.1
  unfold enterFrame at hfi
  simp only [loopBody, he, enterFrame, hfi, hskip]
  simp

theorem loopBody_raised {σ : Type} (cfg : Config) (cv : Vision σ) (tps : Int)
    (logOpen : Bool) (s : LoopState σ) (inp : FrameInput) (he : inp.frame.empty = false)
    (hskip : skipFrame cfg.frameSkip (wrapInt (s.frameIndex + 1)) = false)
    (hd : detect cfg cv s.subtractor (enterFrame cfg cv s inp).effectiveRoi
      (resizeStep cfg cv inp.frame) = none) :
    loopBody cfg cv tps logOpen s inp =
      (Flow.raised, { enterFrame cfg cv s inp with
        subtractor := (thresholdStage cfg cv s.subtractor (resizeStep cfg cv inp.frame)).1 }) := by
  have hf := enterFrame_fields cfg cv s inp
  have hfi := hf.2.2.1
  have hsub := hf.1
  unfold enterFrame at hfi hsub hd
  simp only [loopBody, he, enterFrame, hfi, hskip, hsub, hd]
  simp

theorem snapshotDecision_snd (save : Bool) (tps : Int) (m : Bool) (now last : Int) :
    (snapshotDecision save tps m now last).2 =
      if (snapshotDecision save tps m now last).1 then now else last := by
  unfold snapshotDecision
  cases m <;> cases save <;> simp
  split <;> simp

theorem loopBody_processed {σ : Type} (cfg : Config) (cv : Vision σ) (tps : Int)
    (logOpen : Bool) (s : LoopState σ) (inp : FrameInput) (d : Detection σ)
    (he : inp.frame.empty = false)
    (hskip : skipFrame cfg.frameSkip (wrapInt (s.frameIndex + 1)) = false)
    (hd : detect cfg cv s.subtractor (enterFrame cfg cv s inp).effectiveRoi
      (resizeStep cfg cv inp.frame) = some d) :
    loopBody cfg cv tps logOpen s inp =
      (keyFlow inp.key, afterDetection cfg tps logOpen (enterFrame cfg cv s inp) inp.now d) := by
  have hf := enterFrame_fields cfg cv s inp
  have hfi := hf.2.2.1
  have hsub := hf.1
  have hsnd := snapshotDecision_snd cfg.saveSnapshots tps d.motionDetected inp.now
    (enterFrame cfg cv s inp).lastSnapshotTime
  unfold enterFrame at hfi hsub hd
  simp only [loopBody, he, hfi, hskip, hsub, hd, afterDetection]
  unfold enterFrame at hsnd ⊢
  cases hfire : (snapshotDecision cfg.saveSnapshots tps d.motionDetected inp.now
      (roiInitStep cfg (resizeStep cfg cv inp.frame)
        { s with frameIndex := wrapInt (s.frameIndex + 1) }).lastSnapshotTime).1 <;>
    cases logOpen <;> cases hm : d.motionDetected <;> simp_all

/-! ## Snapshot throttle -/

theorem wrapInt64_of_range (n : Int) (h1 : int64Min ≤ n) (h2 : n ≤ int64Max) :
    wrapInt64 n = n := by
  unfold wrapInt64
  unfold int64Min at h1
  unfold int64Max at h2
  omega

/-- The elapsed time truncated to whole seconds is at least 1 exactly when at
least one second of ticks has elapsed. -/
theorem tdiv_ge_one_iff (d tps : Int) (htps : 0 < tps) : Int.tdiv d tps ≥ 1 ↔ tps ≤ d := by
  rcases le_or_lt 0 d with hd | hd
  · rw [Int.tdiv_eq_ediv hd (le_of_lt htps), ge_iff_le, Int.le_ediv_iff_mul_le htps]
    omega
  · have h1 : Int.tdiv d tps = -(Int.tdiv (-d) tps) := by
      rw [← Int.neg_tdiv, neg_neg]
    have h2 : 0 ≤ Int.tdiv (-d) tps := Int.tdiv_nonneg (by omega) (le_of_lt htps)
    constructor
    · intro h; omega
    · intro h; omega

theorem snapshotDecision_fst (save : Bool) (tps : Int) (m : Bool) (now last : Int) :
    (snapshotDecision save tps m now last).1 = true ↔
      (m = true ∧ save = true ∧ Int.tdiv (wrapInt64 (now - last)) tps ≥ 1) := by
  unfold snapshotDecision
  cases m <;> cases save <;> simp
  split <;> simp_all

/-- From a `lastSnapshotTime` that is the epoch or an earlier time point, the
tick difference does not wrap, and the decision either leaves
`lastSnapshotTime` alone or fires at least one second after it. -/
theorem snapshotDecision_safe (save : Bool) (tps : Int) (htps : 0 < tps) (m : Bool)
    (now last : Int) (h0 : 0 ≤ last) (hlt : last = 0 ∨ last < now)
    (hr : int64Min ≤ now ∧ now ≤ int64Max) :
    ((snapshotDecision save tps m now last).1 = false ∧
        (snapshotDecision save tps m now last).2 = last) ∨
      ((snapshotDecision save tps m now last).1 = true ∧
        (snapshotDecision save tps m now last).2 = now ∧ now - last ≥ tps) := by
  have hw : wrapInt64 (now - last) = now - last := by
    apply wrapInt64_of_range
    · rcases hlt with h | h
      · rw [h]; simpa using hr.1
      · simp only [int64Min]; omega
    · have := hr.2
      omega
  have h2 := snapshotDecision_snd save tps m now last
  cases hb : (snapshotDecision save tps m now last).1
  · left
    rw [hb] at h2
    exact ⟨rfl, by simpa using h2⟩
  · right
    rw [hb] at h2
    have h3 := ((snapshotDecision_fst save tps m now last).1 hb).2.2
    rw [hw] at h3
    exact ⟨rfl, by simpa using h2, (tdiv_ge_one_iff _ tps htps).1 h3⟩

/-- C3, as the claim states it, fails: with `lastSnapshotTime` at 9 * 10^18
ticks and `now` at -9 * 10^18 ticks (both representable, nanosecond ticks) the
elapsed time `now - lastSnapshotTime` is negative, yet the 64-bit difference
wraps to 446744073 whole seconds and the snapshot is written, in the decision
and in the loop body. -/
theorem snapshot_fires_on_wrapped_difference :
    (int64Min ≤ 9000000000000000000 ∧ (9000000000000000000 : Int) ≤ int64Max ∧
      int64Min ≤ -9000000000000000000 ∧ (-9000000000000000000 : Int) ≤ int64Max) ∧
    (snapshotDecision true 1000000000 true (-9000000000000000000) 9000000000000000000).1
      = true ∧
    Int.tdiv (wrapInt64 (-9000000000000000000 - 9000000000000000000)) 1000000000 = 446744073 ∧
    ¬ (Int.tdiv (-9000000000000000000 - 9000000000000000000) 1000000000 ≥ 1) ∧
    (loopBody sampleConfig sampleVision 1000000000 true lateState wrappedInput).2.snapshots
      = [9000000000000000000, -9000000000000000000] := by
  decide

/-- C3, amended. On a processed frame with snapshot saving enabled, whatever
the verdict, for every current time and stored `lastSnapshotTime` whose
difference `now - lastSnapshotTime` is a 64-bit tick count (the subtraction
does not overflow): a snapshot is written exactly when motion is detected and
the elapsed time, truncated to whole seconds, is at least 1; then
`lastSnapshotTime` becomes `now`, and otherwise `lastSnapshotTime` and the
snapshots written so far are unchanged. For all time points the test is on
the 64-bit difference, and `lastSnapshotTime` becomes `now` exactly when the
snapshot is written. -/
theorem snapshot_fires_iff {σ : Type} (cfg : Config) (cv : Vision σ) (tps : Int)
    (logOpen : Bool) (s : LoopState σ) (inp : FrameInput) (d : Detection σ)
    (hsave : cfg.saveSnapshots = true) (he : inp.frame.empty = false)
    (hskip : skipFrame cfg.frameSkip (wrapInt (s.frameIndex + 1)) = false)
    (hd : detect cfg cv s.subtractor (enterFrame cfg cv s inp).effectiveRoi
      (resizeStep cfg cv inp.frame) = some d)
    (hlo : int64Min ≤ inp.now - s.lastSnapshotTime)
    (hhi : inp.now - s.lastSnapshotTime ≤ int64Max) :
    (∀ (m : Bool) (now last : Int),
      ((snapshotDecision true tps m now last).1 = true ↔
        (m = true ∧ Int.tdiv (wrapInt64 (now - last)) tps ≥ 1)) ∧
      ((snapshotDecision true tps m now last).1 = true →
        (snapshotDecision true tps m now last).2 = now) ∧
      ((snapshotDecision true tps m now last).1 = false →
        (snapshotDecision true tps m now last).2 = last)) ∧
    (∀ (m : Bool) (now last : Int), int64Min ≤ now - last → now - last ≤ int64Max →
      ((snapshotDecision true tps m now last).1 = true ↔
        (m = true ∧ Int.tdiv (now - last) tps ≥ 1))) ∧
    ((d.motionDetected = true ∧ Int.tdiv (inp.now - s.lastSnapshotTime) tps ≥ 1) →
      (loopBody cfg cv tps logOpen s inp).2.snapshots = s.snapshots ++ [inp.now] ∧
      (loopBody cfg cv tps logOpen s inp).2.lastSnapshotTime = inp.now) ∧
    (¬ (d.motionDetected = true ∧ Int.tdiv (inp.now - s.lastSnapshotTime) tps ≥ 1) →
      (loopBody cfg cv tps logOpen s inp).2.snapshots = s.snapshots ∧
      (loopBody cfg cv tps logOpen s inp).2.lastSnapshotTime = s.lastSnapshotTime) := by
  have hpure : ∀ (m : Bool) (now last : Int), int64Min ≤ now - last →
      now - last ≤ int64Max →
      ((snapshotDecision true tps m now last).1 = true ↔
        (m = true ∧ Int.tdiv (now - last) tps ≥ 1)) := by
    intro m now last h1 h2
    rw [snapshotDecision_fst, wrapInt64_of_range _ h1 h2]
    simp
  have hf := enterFrame_fields cfg cv s inp
  rw [loopBody_processed cfg cv tps logOpen s inp d he hskip hd]
  refine ⟨fun m now last => ⟨?_, fun h => ?_, fun h => ?_⟩, hpure, fun h => ?_, fun h => ?_⟩
  · rw [snapshotDecision_fst]; simp
  · rw [snapshotDecision_snd, h]; simp
  · rw [snapshotDecision_snd, h]; simp
  · have hfire := (hpure d.motionDetected inp.now s.lastSnapshotTime hlo hhi).2 h
    simp only [afterDetection, hsave, hf.2.2.2.1, hf.2.2.2.2.1]
    rw [snapshotDecision_snd, hfire]
    simp
  · have hfire : (snapshotDecision true tps d.motionDetected inp.now s.lastSnapshotTime).1
        = false := by
      cases hb : (snapshotDecision true tps d.motionDetected inp.now s.lastSnapshotTime).1
      · rfl
      · exact absurd ((hpure _ _ _ hlo hhi).1 hb) h
    simp only [afterDetection, hsave, hf.2.2.2.1, hf.2.2.2.2.1]
    rw [snapshotDecision_snd, hfire]
    simp

theorem snapshot_fires_iff_witness :
    (int64Min ≤ sampleInput.now - sampleState.lastSnapshotTime ∧
      sampleInput.now - sampleState.lastSnapshotTime ≤ int64Max) ∧
      (loopBody sampleConfig sampleVision 1000000000 true sampleState sampleInput).2.snapshots
        = sampleState.snapshots ++ [sampleInput.now] ∧
      (loopBody sampleConfig sampleVision 1000000000 true sampleState
        sampleInput).2.lastSnapshotTime = sampleInput.now :=
  ⟨by decide,
    (snapshot_fires_iff sampleConfig sampleVision 1000000000 true sampleState sampleInput
      ((detect sampleConfig sampleVision sampleState.subtractor
        (enterFrame sampleConfig sampleVision sampleState sampleInput).effectiveRoi
        (resizeStep sampleConfig sampleVision sampleInput.frame)).get (by decide))
      rfl (by decide) (by decide) (by simp) (by decide) (by decide)).2.2.1
      ⟨by decide, by decide⟩⟩

/-- A frame that fires lies at least one second after the `lastSnapshotTime`
the run started from, when that is the epoch or precedes every frame. -/
theorem throttleRun_fire_after_start (save : Bool) (tps : Int) (htps : 0 < tps) :
    ∀ (frames : List (Bool × Int)) (last : Int) (j : Nat) (m : Bool) (tj : Int),
      0 ≤ last → (last = 0 ∨ ∀ f ∈ frames, last < f.2) →
      List.Pairwise (fun a b => a.2 < b.2) frames →
      (∀ f ∈ frames, int64Min ≤ f.2 ∧ f.2 ≤ int64Max) →
      frames[j]? = some (m, tj) → (throttleRun save tps last frames)[j]? = some true →
      tj - last ≥ tps := by
  intro frames
  induction frames with
  | nil => intro last j m tj _ _ _ _ h; simp at h
  | cons f rest ih =>
    intro last j m tj h0 hlt hinc hr hf hj
    obtain ⟨m0, t0⟩ := f
    obtain ⟨hhead, hinc2⟩ := List.pairwise_cons.1 hinc
    have hr2 : ∀ f ∈ rest, int64Min ≤ f.2 ∧ f.2 ≤ int64Max := fun f hf => hr f (by simp [hf])
    have hlt0 : last = 0 ∨ last < t0 := hlt.imp id (fun h => h (m0, t0) (by simp))
    have hlt2 : last = 0 ∨ ∀ f ∈ rest, last < f.2 :=
      hlt.imp id (fun h f hf => h f (by simp [hf]))
    have hsafe := snapshotDecision_safe save tps htps m0 t0 last h0 hlt0 (hr (m0, t0) (by simp))
    cases j with
    | zero =>
      simp only [List.getElem?_cons_zero, Option.some.injEq, Prod.mk.injEq] at hf
      simp only [throttleRun, List.getElem?_cons_zero, Option.some.injEq] at hj
      rcases hsafe with ⟨h1, _⟩ | ⟨_, _, h3⟩
      · rw [h1] at hj; cases hj
      · omega
    | succ j =>
      simp only [List.getElem?_cons_succ] at hf
      simp only [throttleRun, List.getElem?_cons_succ] at hj
      rcases hsafe with ⟨_, h2⟩ | ⟨_, h2, h3⟩
      · rw [h2] at hj
        exact ih last j m tj h0 hlt2 hinc2 hr2 hf hj
      · rw [h2] at hj
        have := ih t0 j m tj (by omega) (Or.inr (fun f hf => hhead f hf)) hinc2 hr2 hf hj
        omega

theorem throttleRun_rate_limit_from (save : Bool) (tps : Int) (htps : 0 < tps) :
    ∀ (frames : List (Bool × Int)) (last : Int) (i j : Nat) (mi mj : Bool) (ti tj : Int),
      0 ≤ last → (last = 0 ∨ ∀ f ∈ frames, last < f.2) →
      List.Pairwise (fun a b => a.2 < b.2) frames →
      (∀ f ∈ frames, int64Min ≤ f.2 ∧ f.2 ≤ int64Max) →
      i < j → frames[i]? = some (mi, ti) → frames[j]? = some (mj, tj) →
      (throttleRun save tps last frames)[i]? = some true →
      (throttleRun save tps last frames)[j]? = some true → tj - ti ≥ tps := by
  intro frames
  induction frames with
  | nil => intro last i j mi mj ti tj _ _ _ _ _ h; simp at h
  | cons f rest ih =>
    intro last i j mi mj ti tj h0 hlt hinc hr hij hfi hfj hi hj
    obtain ⟨m0, t0⟩ := f
    obtain ⟨hhead, hinc2⟩ := List.pairwise_cons.1 hinc
    have hr2 : ∀ f ∈ rest, int64Min ≤ f.2 ∧ f.2 ≤ int64Max := fun f hf => hr f (by simp [hf])
    have hlt0 : last = 0 ∨ last < t0 := hlt.imp id (fun h => h (m0, t0) (by simp))
    have hlt2 : last = 0 ∨ ∀ f ∈ rest, last < f.2 :=
      hlt.imp id (fun h f hf => h f (by simp [hf]))
    have hsafe := snapshotDecision_safe save tps htps m0 t0 last h0 hlt0 (hr (m0, t0) (by simp))
    cases j with
    | zero => omega
    | succ j =>
      simp only [List.getElem?_cons_succ] at hfj
      simp only [throttleRun, List.getElem?_cons_succ] at hj
      cases i with
      | zero =>
        simp only [List.getElem?_cons_zero, Option.some.injEq, Prod.mk.injEq] at hfi
        simp only [throttleRun, List.getElem?_cons_zero, Option.some.injEq] at hi
        rcases hsafe with ⟨h1, _⟩ | ⟨_, h2, h3⟩
        · rw [h1] at hi; cases hi
        · rw [h2] at hj
          have := throttleRun_fire_after_start save tps htps rest t0 j mj tj (by omega)
            (Or.inr (fun f hf => hhead f hf)) hinc2 hr2 hfj hj
          omega
      | succ i =>
        simp only [List.getElem?_cons_succ] at hfi
        simp only [throttleRun, List.getElem?_cons_succ] at hi
        rcases hsafe with ⟨_, h2⟩ | ⟨_, h2, h3⟩
        · rw [h2] at hi hj
          exact ih last i j mi mj ti tj h0 hlt2 hinc2 hr2 (by omega) hfi hfj hi hj
        · rw [h2] at hi hj
          exact ih t0 i j mi mj ti tj (by omega) (Or.inr (fun f hf => hhead f hf)) hinc2 hr2
            (by omega) hfi hfj hi hj

theorem afterDetection_spaced {σ : Type} (cfg : Config) (tps : Int) (htps : 0 < tps)
    (logOpen : Bool) (s : LoopState σ) (now : Int) (d : Detection σ)
    (hs : SnapshotsSpaced tps s) (h0 : 0 ≤ s.lastSnapshotTime)
    (hlt : s.lastSnapshotTime = 0 ∨ s.lastSnapshotTime < now)
    (hr : int64Min ≤ now ∧ now ≤ int64Max) :
    SnapshotsSpaced tps (afterDetection cfg tps logOpen s now d) ∧
      0 ≤ (afterDetection cfg tps logOpen s now d).lastSnapshotTime ∧
      ((afterDetection cfg tps logOpen s now d).lastSnapshotTime = s.lastSnapshotTime ∨
        (afterDetection cfg tps logOpen s now d).lastSnapshotTime = now) := by
  obtain ⟨hp, hle⟩ := hs
  rcases snapshotDecision_safe cfg.saveSnapshots tps htps d.motionDetected now
    s.lastSnapshotTime h0 hlt hr with ⟨h1, h2⟩ | ⟨h1, h2, h3⟩
  · simp only [SnapshotsSpaced, afterDetection, h1, h2, Bool.false_eq_true, if_false]
    exact ⟨⟨hp, hle⟩, h0, Or.inl trivial⟩
  · simp only [SnapshotsSpaced, afterDetection, h1, h2, if_true]
    refine ⟨⟨?_, ?_⟩, by omega, Or.inr trivial⟩
    · rw [List.pairwise_append]
      refine ⟨hp, by simp, ?_⟩
      intro a ha b hb
      simp only [List.mem_singleton] at hb
      subst hb
      have := hle a ha
      omega
    · intro a ha
      rcases List.mem_append.1 ha with h | h
      · have := hle a h
        omega
      · simp only [List.mem_singleton] at h
        omega

theorem loopBody_spaced {σ : Type} (cfg : Config) (cv : Vision σ) (tps : Int) (htps : 0 < tps)
    (logOpen : Bool) (s : LoopState σ) (inp : FrameInput) (hs : SnapshotsSpaced tps s)
    (h0 : 0 ≤ s.lastSnapshotTime)
    (hlt : s.lastSnapshotTime = 0 ∨ s.lastSnapshotTime < inp.now)
    (hr : int64Min ≤ inp.now ∧ inp.now ≤ int64Max) :
    SnapshotsSpaced tps (loopBody cfg cv tps logOpen s inp).2 ∧
      0 ≤ (loopBody cfg cv tps logOpen s inp).2.lastSnapshotTime ∧
      ((loopBody cfg cv tps logOpen s inp).2.lastSnapshotTime = s.lastSnapshotTime ∨
        (loopBody cfg cv tps logOpen s inp).2.lastSnapshotTime = inp.now) := by
  have hf := enterFrame_fields cfg cv s inp
  have hlast := hf.2.2.2.1
  have henter : SnapshotsSpaced tps (enterFrame cfg cv s inp) := by
    simp only [SnapshotsSpaced, hf.2.2.2.1, hf.2.2.2.2.1]
    exact hs
  cases he : inp.frame.empty
  · cases hskip : skipFrame cfg.frameSkip (wrapInt (s.frameIndex + 1))
    · cases hd : detect cfg cv s.subtractor (enterFrame cfg cv s inp).effectiveRoi
          (resizeStep cfg cv inp.frame) with
      | none =>
        rw [loopBody_raised cfg cv tps logOpen s inp he hskip hd]
        refine ⟨henter, ?_, Or.inl ?_⟩
        · show 0 ≤ (enterFrame cfg cv s inp).lastSnapshotTime
          rw [hlast]; exact h0
        · show (enterFrame cfg cv s inp).lastSnapshotTime = s.lastSnapshotTime
          exact hlast
      | some d =>
        rw [loopBody_processed cfg cv tps logOpen s inp d he hskip hd]
        have := afterDetection_spaced cfg tps htps logOpen (enterFrame cfg cv s inp) inp.now d
          henter (by rw [hlast]; exact h0) (by rw [hlast]; exact hlt) hr
        rw [hlast] at this
        exact this
    · rw [loopBody_skipped cfg cv tps logOpen s inp he hskip]
      exact ⟨henter, by rw [hlast]; exact h0, Or.inl hlast⟩
  · rw [loopBody_empty cfg cv tps logOpen s inp he]
    exact ⟨hs, h0, Or.inl rfl⟩

theorem loopTrace_spaced {σ : Type} (cfg : Config) (cv : Vision σ) (tps : Int) (htps : 0 < tps)
    (logOpen : Bool) :
    ∀ (inputs : List FrameInput) (s : LoopState σ), SnapshotsSpaced tps s →
      0 ≤ s.lastSnapshotTime →
      (s.lastSnapshotTime = 0 ∨ ∀ inp ∈ inputs, s.lastSnapshotTime < inp.now) →
      List.Pairwise (fun a b => a.now < b.now) inputs →
      (∀ inp ∈ inputs, int64Min ≤ inp.now ∧ inp.now ≤ int64Max) →
      ∀ r ∈ loopTrace cfg cv tps logOpen s inputs, SnapshotsSpaced tps r.2 := by
  intro inputs
  induction inputs with
  | nil => intro s _ _ _ _ _ r hr; simp [loopTrace] at hr
  | cons inp rest ih =>
    intro s hs h0 hlt hinc hrange r hr
    obtain ⟨hhead, hinc2⟩ := List.pairwise_cons.1 hinc
    have hstep := loopBody_spaced cfg cv tps htps logOpen s inp hs h0
      (hlt.imp id (fun h => h inp (by simp))) (hrange inp (by simp))
    have hnext : (loopBody cfg cv tps logOpen s inp).2.lastSnapshotTime = 0 ∨
        ∀ i ∈ rest, (loopBody cfg cv tps logOpen s inp).2.lastSnapshotTime < i.now := by
      rcases hstep.2.2 with h | h
      · rw [h]
        exact hlt.imp id (fun h i hi => h i (by simp [hi]))
      · rw [h]
        exact Or.inr (fun i hi => hhead i hi)
    simp only [loopTrace] at hr
    split at hr
    · rcases List.mem_cons.1 hr with h | h
      · subst h; exact hstep.1
      · exact ih _ hstep.1 hstep.2.1 hnext hinc2 (fun i hi => hrange i (by simp [hi])) r h
    · simp only [List.mem_singleton] at hr
      subst hr
      exact hstep.1

/-- C2. The snapshot decision of the main loop, run over any sequence of
processed frames with strictly increasing timestamps (64-bit tick counts)
from `lastSnapshotTime` = epoch 0, never fires twice within one second: two
frames that both fire are at least one second (`tps` ticks) apart. Three
motion frames at `t`, `t + d1` and `t + d2`, with `t` at least one second after
the epoch and `0 < d1 <` one second `≤ d2` (such as 0.3 s and 1.2 s), fire, do
not fire, and fire. And in every run of the loop itself over frames read at
strictly increasing times, the snapshots written are pairwise at least one
second apart. -/
theorem throttle_rate_limit (tps : Int) (htps : 0 < tps) :
    (∀ (save : Bool) (frames : List (Bool × Int)) (i j : Nat) (mi mj : Bool) (ti tj : Int),
      List.Pairwise (fun a b => a.2 < b.2) frames →
      (∀ f ∈ frames, int64Min ≤ f.2 ∧ f.2 ≤ int64Max) →
      i < j → frames[i]? = some (mi, ti) → frames[j]? = some (mj, tj) →
      (throttleRun save tps 0 frames)[i]? = some true →
      (throttleRun save tps 0 frames)[j]? = some true → tj - ti ≥ tps) ∧
    (∀ t d1 d2 : Int, tps ≤ t → 0 < d1 → d1 < tps → tps ≤ d2 → t + d2 ≤ int64Max →
      throttleRun true tps 0 [(true, t), (true, t + d1), (true, t + d2)]
        = [true, false, true]) ∧
    (∀ (σ : Type) (cfg : Config) (cv : Vision σ) (logOpen : Bool) (subtractor : σ)
      (inputs : List FrameInput),
      List.Pairwise (fun a b => a.now < b.now) inputs →
      (∀ inp ∈ inputs, int64Min ≤ inp.now ∧ inp.now ≤ int64Max) →
      ∀ r ∈ loopTrace cfg cv tps logOpen (LoopState.init subtractor) inputs,
        List.Pairwise (fun a b => b - a ≥ tps) r.2.snapshots) := by
  refine ⟨fun save frames i j mi mj ti tj hinc hr hij hfi hfj hi hj =>
    throttleRun_rate_limit_from save tps htps frames 0 i j mi mj ti tj (le_refl 0)
      (Or.inl rfl) hinc hr hij hfi hfj hi hj, ?_, ?_⟩
  · intro t d1 d2 ht h1 h2 h3 hmax
    have hmin : int64Min ≤ 0 := by decide
    have hmax' := hmax
    simp only [int64Max] at hmax'
    simp only [int64Min] at hmin
    have s1 := snapshotDecision_safe true tps htps true t 0 (le_refl 0) (Or.inl rfl)
      ⟨by simp only [int64Min]; omega, by simp only [int64Max]; omega⟩
    have s2 := snapshotDecision_safe true tps htps true (t + d1) t (by omega)
      (Or.inr (by omega)) ⟨by simp only [int64Min]; omega, by simp only [int64Max]; omega⟩
    have s3 := snapshotDecision_safe true tps htps true (t + d2) t (by omega)
      (Or.inr (by omega)) ⟨by simp only [int64Min]; omega, by simp only [int64Max]; omega⟩
    have f1 : (snapshotDecision true tps true t 0).1 = true :=
      (snapshotDecision_fst true tps true t 0).2 ⟨rfl, rfl, by
        rw [wrapInt64_of_range _ (by simp only [int64Min]; omega)
          (by simp only [int64Max]; omega)]
        exact (tdiv_ge_one_iff _ tps htps).2 (by omega)⟩
    have f3 : (snapshotDecision true tps true (t + d2) t).1 = true :=
      (snapshotDecision_fst true tps true (t + d2) t).2 ⟨rfl, rfl, by
        rw [wrapInt64_of_range _ (by simp only [int64Min]; omega)
          (by simp only [int64Max]; omega)]
        exact (tdiv_ge_one_iff _ tps htps).2 (by omega)⟩
    have e1 : snapshotDecision true tps true t 0 = (true, t) := by
      rcases s1 with ⟨h, _⟩ | ⟨h, h', _⟩
      · rw [f1] at h; cases h
      · exact Prod.ext h h'
    have e2 : snapshotDecision true tps true (t + d1) t = (false, t) := by
      rcases s2 with ⟨h, h'⟩ | ⟨_, _, h⟩
      · exact Prod.ext h h'
      · omega
    have e3 : snapshotDecision true tps true (t + d2) t = (true, t + d2) := by
      rcases s3 with ⟨h, _⟩ | ⟨h, h', _⟩
      · rw [f3] at h; cases h
      · exact Prod.ext h h'
    simp only [throttleRun, e1, e2, e3]
  · intro σ cfg cv logOpen subtractor inputs hinc hr r hmem
    have h0 : SnapshotsSpaced tps (LoopState.init subtractor) := by
      simp [SnapshotsSpaced, LoopState.init]
    exact (loopTrace_spaced cfg cv tps htps logOpen inputs _ h0 (le_refl 0) (Or.inl rfl)
      hinc hr r hmem).1

theorem throttle_rate_limit_witness :
    (0 : Int) < 1000000000 ∧
      throttleRun true 1000000000 0
        [(true, 1700000000000000000), (true, 1700000000300000000),
          (true, 1700000001200000000)] = [true, false, true] :=
  ⟨by decide, (throttle_rate_limit 1000000000 (by decide)).2.1 1700000000000000000 300000000
    1200000000 (by decide) (by decide) (by decide) (by decide) (by decide)⟩

/-- C8, as the claim states it, fails: a first motion frame half a second
after the epoch (with nanosecond ticks) writes no snapshot, in the throttle
run and in the loop body (first processed frame of a run, snapshots enabled,
motion detected, `lastSnapshotTime` still the epoch). -/
theorem first_snapshot_not_for_every_now :
    ¬ (∀ now : Int, throttleRun true 1000000000 0 [(true, now)] = [true]) ∧
      sampleConfig.saveSnapshots = true ∧ sampleState.lastSnapshotTime = 0 ∧
      (loopBody sampleConfig sampleVision 1000000000 true sampleState
        earlyInput).2.motionDetected = true ∧
      (loopBody sampleConfig sampleVision 1000000000 true sampleState
        earlyInput).2.snapshots = [] := by
  refine ⟨?_, by decide, by decide, by decide, by decide⟩
  intro h
  have h1 := h 500000000
  revert h1
  decide

/-- C8, amended. From the initial throttle state (`lastSnapshotTime` = epoch 0)
with snapshot saving enabled, the first processed frame on which motion is
detected fires a snapshot whenever its time `now` (a 64-bit tick count) is at
least one second after the epoch; frames without motion before it do not fire
and leave the state alone. -/
theorem first_snapshot_fires (tps : Int) (htps : 0 < tps) (now : Int) (hnow : tps ≤ now)
    (hmax : now ≤ int64Max)
    (before after : List (Bool × Int)) (hbefore : ∀ f ∈ before, f.1 = false) :
    (throttleRun true tps 0 (before ++ (true, now) :: after))[before.length]? = some true ∧
      (snapshotDecision true tps true now 0) = (true, now) := by
  have hw : wrapInt64 (now - 0) = now - 0 :=
    wrapInt64_of_range _ (by simp only [int64Min]; omega) (by simpa using hmax)
  have hfire : (snapshotDecision true tps true now 0).1 = true :=
    (snapshotDecision_fst true tps true now 0).2
      ⟨rfl, rfl, by rw [hw]; exact (tdiv_ge_one_iff _ tps htps).2 (by omega)⟩
  refine ⟨?_, ?_⟩
  · induction before with
    | nil => simp [throttleRun, hfire]
    | cons f rest ih =>
      obtain ⟨m0, t0⟩ := f
      have hm0 : m0 = false := hbefore (m0, t0) (by simp)
      subst hm0
      have hrest : ∀ f ∈ rest, f.1 = false := fun f hf => hbefore f (by simp [hf])
      have hs : snapshotDecision true tps false t0 0 = (false, 0) := by
        simp [snapshotDecision]
      simp only [List.cons_append, throttleRun, hs, List.length_cons, List.getElem?_cons_succ]
      exact ih hrest
  · have h2 := snapshotDecision_snd true tps true now 0
    rw [hfire] at h2
    exact Prod.ext hfire (by simpa using h2)

/-! ## Skipped frames -/

/-- C5. For every loop state and every (non-empty) frame that the frame-skip
gate rejects, one loop iteration leaves the background-subtractor state,
`lastSnapshotTime`, the snapshots written, the log lines written and the
motion flag as they were; the frame counter is incremented, and the effective
ROI changes only if it had not been initialised yet. -/
theorem skipped_frame_invisible {σ : Type} (cfg : Config) (cv : Vision σ) (tps : Int)
    (logOpen : Bool) (s : LoopState σ) (inp : FrameInput) (he : inp.frame.empty = false)
    (hskip : skipFrame cfg.frameSkip (wrapInt (s.frameIndex + 1)) = true) :
    (loopBody cfg cv tps logOpen s inp).1 = keyFlow inp.key ∧
    (loopBody cfg cv tps logOpen s inp).2.subtractor = s.subtractor ∧
    (loopBody cfg cv tps logOpen s inp).2.lastSnapshotTime = s.lastSnapshotTime ∧
    (loopBody cfg cv tps logOpen s inp).2.snapshots = s.snapshots ∧
    (loopBody cfg cv tps logOpen s inp).2.logLines = s.logLines ∧
    (loopBody cfg cv tps logOpen s inp).2.motionDetected = s.motionDetected ∧
    (loopBody cfg cv tps logOpen s inp).2.frameIndex = wrapInt (s.frameIndex + 1) ∧
    (loopBody cfg cv tps logOpen s inp).2.roiInitialized = true ∧
    (loopBody cfg cv tps logOpen s inp).2.effectiveRoi =
      (if s.roiInitialized then s.effectiveRoi
       else resolveRoi cfg.roi (resizeStep cfg cv inp.frame).cols
         (resizeStep cfg cv inp.frame).rows) := by
  rw [loopBody_skipped cfg cv tps logOpen s inp he hskip]
  obtain ⟨h1, h2, h3, h4, h5, h6, h7, h8⟩ := enterFrame_fields cfg cv s inp
  exact ⟨rfl, h1, h4, h5, h6, h2, h3, h7, h8⟩

/-! ## Motion verdict -/

/-- For two `double` values that are numbers, `a >= b` is the failure of
`a < b`. -/
theorem Double.ge_iff_not_lt (a b : Double) (ha : a ≠ Double.nan) (hb : b ≠ Double.nan) :
    Double.ge a b = true ↔ Double.lt a b = false := by
  cases a <;> cases b <;> simp_all [Double.ge, Double.lt]

/-- Against NaN both comparisons are false. -/
theorem Double.nan_right (a : Double) :
    Double.lt a Double.nan = false ∧ Double.ge a Double.nan = false := by
  cases a <;> simp [Double.ge, Double.lt]

theorem mem_motionBoxes (area : List Point → Double) (minArea : Double) (box : Rect) :
    ∀ contours : List (List Point),
      box ∈ motionBoxes area minArea contours ↔
        ∃ c ∈ contours, Double.lt (area c) minArea = false ∧ box = boundingRect c := by
  intro contours
  induction contours with
  | nil => simp [motionBoxes]
  | cons c rest ih =>
    cases hc : Double.lt (area c) minArea
    · simp only [motionBoxes, hc, Bool.false_eq_true, if_false, ih, List.mem_cons,
        exists_eq_or_imp, true_and]
    · simp only [motionBoxes, hc, if_true, ih, List.mem_cons, exists_eq_or_imp,
        Bool.true_eq_false, false_and, false_or]

theorem motionBoxes_ne_nil_iff (area : List Point → Double) (minArea : Double)
    (contours : List (List Point)) :
    motionBoxes area minArea contours ≠ [] ↔
      ∃ c ∈ contours, Double.lt (area c) minArea = false := by
  constructor
  · intro h
    obtain ⟨box, hbox⟩ := List.exists_mem_of_ne_nil _ h
    obtain ⟨c, hc, ha, _⟩ := (mem_motionBoxes area minArea box contours).1 hbox
    exact ⟨c, hc, ha⟩
  · rintro ⟨c, hc, ha⟩
    have : boundingRect c ∈ motionBoxes area minArea contours :=
      (mem_motionBoxes area minArea _ contours).2 ⟨c, hc, ha, rfl⟩
    exact List.ne_nil_of_mem this

theorem exists_ge_iff_exists_not_lt (area : List Point → Double) (minArea : Double)
    (contours : List (List Point)) (hmin : minArea ≠ Double.nan)
    (harea : ∀ c ∈ contours, area c ≠ Double.nan) :
    (∃ c ∈ contours, Double.ge (area c) minArea = true) ↔
      ∃ c ∈ contours, Double.lt (area c) minArea = false := by
  constructor
  · rintro ⟨c, hc, h⟩
    exact ⟨c, hc, (Double.ge_iff_not_lt _ _ (harea c hc) hmin).1 h⟩
  · rintro ⟨c, hc, h⟩
    exact ⟨c, hc, (Double.ge_iff_not_lt _ _ (harea c hc) hmin).2 h⟩

theorem detect_some_fields {σ : Type} (cfg : Config) (cv : Vision σ) (subtractor : σ)
    (roi : Rect) (frame : Mat) (d : Detection σ)
    (hd : detect cfg cv subtractor roi frame = some d) :
    d.subtractor = (thresholdStage cfg cv subtractor frame).1 ∧
      d.thresholdMask = (thresholdStage cfg cv subtractor frame).2 ∧
      copyRoi d.thresholdMask (Mat.zeros d.thresholdMask.rows d.thresholdMask.cols) roi
        = some d.roiMask ∧
      d.contours = cv.findContours d.roiMask ∧
      d.motionBoxes = motionBoxes cv.contourArea cfg.minContourArea d.contours ∧
      d.motionDetected = !d.motionBoxes.isEmpty := by
  unfold detect at hd
  simp only at hd
  split at hd
  · cases hd
  · rename_i m hm
    simp only [Option.some.injEq] at hd
    subst hd
    exact ⟨rfl, rfl, hm, rfl, rfl, rfl⟩

/-- C9, as the claim states it, fails: after `--min-area nan` the frame
`sampleFrame` is reported as motion (three boxes), though none of its three
contours has an area `>=` the minimum area. -/
theorem motion_reported_for_nan_minimum :
    (loopBody nanConfig sampleVision 1000000000 true sampleState
      sampleInput).2.motionDetected = true ∧
    (detect nanConfig sampleVision sampleState.subtractor
      (enterFrame nanConfig sampleVision sampleState sampleInput).effectiveRoi
      (resizeStep nanConfig sampleVision sampleInput.frame)).map
        (fun d => (d.motionBoxes.length,
          d.contours.map fun c => Double.ge (sampleVision.contourArea c)
            nanConfig.minContourArea))
      = some (3, [false, false, false]) := by
  decide

/-- C9, amended. For every list of contours and every minimum area, the
verdict computed from the boxes is true exactly when the list of boxes is
non-empty, that is exactly when some contour has an area that is not less
than the minimum (the test `area < minimum` fails); when the minimum and the
areas are numbers (not NaN) this is: some contour has an area of at least the
minimum. On a processed frame `motionDetected` is this verdict for the
contours of the frame. -/
theorem motion_verdict_iff {σ : Type} (cfg : Config) (cv : Vision σ) (tps : Int)
    (logOpen : Bool) (s : LoopState σ) (inp : FrameInput) (d : Detection σ)
    (he : inp.frame.empty = false)
    (hskip : skipFrame cfg.frameSkip (wrapInt (s.frameIndex + 1)) = false)
    (hd : detect cfg cv s.subtractor (enterFrame cfg cv s inp).effectiveRoi
      (resizeStep cfg cv inp.frame) = some d) :
    (∀ (area : List Point → Double) (minArea : Double) (contours : List (List Point)),
      ((!(motionBoxes area minArea contours).isEmpty) = true ↔
        motionBoxes area minArea contours ≠ []) ∧
      ((!(motionBoxes area minArea contours).isEmpty) = true ↔
        ∃ c ∈ contours, Double.lt (area c) minArea = false) ∧
      (minArea ≠ Double.nan → (∀ c ∈ contours, area c ≠ Double.nan) →
        ((!(motionBoxes area minArea contours).isEmpty) = true ↔
          ∃ c ∈ contours, Double.ge (area c) minArea = true))) ∧
    d.motionBoxes = motionBoxes cv.contourArea cfg.minContourArea d.contours ∧
    ((loopBody cfg cv tps logOpen s inp).2.motionDetected = true ↔ d.motionBoxes ≠ []) ∧
    ((loopBody cfg cv tps logOpen s inp).2.motionDetected = true ↔
      ∃ c ∈ d.contours, Double.lt (cv.contourArea c) cfg.minContourArea = false) ∧
    (cfg.minContourArea ≠ Double.nan → (∀ c ∈ d.contours, cv.contourArea c ≠ Double.nan) →
      ((loopBody cfg cv tps logOpen s inp).2.motionDetected = true ↔
        ∃ c ∈ d.contours, Double.ge (cv.contourArea c) cfg.minContourArea = true)) := by
  have hgen : ∀ (l : List Rect), ((!l.isEmpty) = true ↔ l ≠ []) := by
    intro l; cases l <;> simp
  obtain ⟨_, _, _, _, hboxes, hverdict⟩ := detect_some_fields cfg cv _ _ _ d hd
  have hmd : (loopBody cfg cv tps logOpen s inp).2.motionDetected = d.motionDetected := by
    rw [loopBody_processed cfg cv tps logOpen s inp d he hskip hd]
    rfl
  refine ⟨fun area minArea contours => ⟨hgen _, ?_, fun hmin harea => ?_⟩, hboxes, ?_, ?_,
    fun hmin harea => ?_⟩
  · rw [hgen, motionBoxes_ne_nil_iff]
  · rw [hgen, motionBoxes_ne_nil_iff, exists_ge_iff_exists_not_lt _ _ _ hmin harea]
  · rw [hmd, hverdict, hgen]
  · rw [hmd, hverdict, hgen, hboxes, motionBoxes_ne_nil_iff]
  · rw [hmd, hverdict, hgen, hboxes, motionBoxes_ne_nil_iff,
      exists_ge_iff_exists_not_lt _ _ _ hmin harea]

/-! ## Bounding boxes and the ROI mask -/

theorem foldl_min_le (f : Point → Int) :
    ∀ (ps : List Point) (a : Int),
      ps.foldl (fun m q => min m (f q)) a ≤ a ∧
        ∀ p ∈ ps, ps.foldl (fun m q => min m (f q)) a ≤ f p := by
  intro ps
  induction ps with
  | nil => intro a; simp
  | cons q rest ih =>
    intro a
    have h := ih (min a (f q))
    simp only [List.foldl_cons, List.mem_cons, forall_eq_or_imp]
    refine ⟨le_trans h.1 (min_le_left _ _), le_trans h.1 (min_le_right _ _), h.2⟩

theorem le_foldl_max (f : Point → Int) :
    ∀ (ps : List Point) (a : Int),
      a ≤ ps.foldl (fun m q => max m (f q)) a ∧
        ∀ p ∈ ps, f p ≤ ps.foldl (fun m q => max m (f q)) a := by
  intro ps
  induction ps with
  | nil => intro a; simp
  | cons q rest ih =>
    intro a
    have h := ih (max a (f q))
    simp only [List.foldl_cons, List.mem_cons, forall_eq_or_imp]
    refine ⟨le_trans (le_max_left _ _) h.1, le_trans (le_max_right _ _) h.1, h.2⟩

theorem foldl_min_attained (f : Point → Int) :
    ∀ (ps : List Point) (a : Int),
      ps.foldl (fun m q => min m (f q)) a = a ∨
        ∃ p ∈ ps, ps.foldl (fun m q => min m (f q)) a = f p := by
  intro ps
  induction ps with
  | nil => intro a; simp
  | cons q rest ih =>
    intro a
    simp only [List.foldl_cons, List.mem_cons, exists_eq_or_imp]
    rcases ih (min a (f q)) with h | ⟨p, hp, h⟩
    · rcases min_choice a (f q) with h2 | h2
      · left; rw [h, h2]
      · right; left; rw [h, h2]
    · right; right; exact ⟨p, hp, h⟩

theorem foldl_max_attained (f : Point → Int) :
    ∀ (ps : List Point) (a : Int),
      ps.foldl (fun m q => max m (f q)) a = a ∨
        ∃ p ∈ ps, ps.foldl (fun m q => max m (f q)) a = f p := by
  intro ps
  induction ps with
  | nil => intro a; simp
  | cons q rest ih =>
    intro a
    simp only [List.foldl_cons, List.mem_cons, exists_eq_or_imp]
    rcases ih (max a (f q)) with h | ⟨p, hp, h⟩
    · rcases max_choice a (f q) with h2 | h2
      · left; rw [h, h2]
      · right; left; rw [h, h2]
    · right; right; exact ⟨p, hp, h⟩

/-- The bounding rectangle holds every pixel of the contour. -/
theorem boundingRect_contains (c : List Point) (p : Point) (hp : p ∈ c) :
    (boundingRect c).contains p := by
  cases c with
  | nil => simp at hp
  | cons q rest =>
    have hxmin := foldl_min_le (fun r => r.x) rest q.x
    have hxmax := le_foldl_max (fun r => r.x) rest q.x
    have hymin := foldl_min_le (fun r => r.y) rest q.y
    have hymax := le_foldl_max (fun r => r.y) rest q.y
    simp only [boundingRect, Rect.contains]
    rcases List.mem_cons.1 hp with h | h
    · subst h
      have a1 := hxmin.1
      have a2 := hxmax.1
      have a3 := hymin.1
      have a4 := hymax.1
      omega
    · have a1 := hxmin.2 p h
      have a2 := hxmax.2 p h
      have a3 := hymin.2 p h
      have a4 := hymax.2 p h
      omega

/-- The bounding rectangle is minimal: it lies within every rectangle that
holds every pixel of the (non-empty) contour. -/
theorem boundingRect_minimal (c : List Point) (hc : c ≠ []) (r : Rect)
    (hr : ∀ p ∈ c, r.contains p) : (boundingRect c).within r := by
  cases c with
  | nil => exact absurd rfl hc
  | cons q rest =>
    have hq := hr q (by simp)
    have hrest : ∀ p ∈ rest, r.contains p := fun p hp => hr p (by simp [hp])
    simp only [Rect.contains] at hq hrest
    have exmin : r.x ≤ rest.foldl (fun m q => min m q.x) q.x := by
      rcases foldl_min_attained (fun r => r.x) rest q.x with h | ⟨p, hp, h⟩
      · rw [h]; exact hq.1
      · rw [h]; exact (hrest p hp).1
    have exmax : rest.foldl (fun m q => max m q.x) q.x < r.x + r.width := by
      rcases foldl_max_attained (fun r => r.x) rest q.x with h | ⟨p, hp, h⟩
      · rw [h]; exact hq.2.1
      · rw [h]; exact (hrest p hp).2.1
    have eymin : r.y ≤ rest.foldl (fun m q => min m q.y) q.y := by
      rcases foldl_min_attained (fun r => r.y) rest q.y with h | ⟨p, hp, h⟩
      · rw [h]; exact hq.2.2.1
      · rw [h]; exact (hrest p hp).2.2.1
    have eymax : rest.foldl (fun m q => max m q.y) q.y < r.y + r.height := by
      rcases foldl_max_attained (fun r => r.y) rest q.y with h | ⟨p, hp, h⟩
      · rw [h]; exact hq.2.2.2
      · rw [h]; exact (hrest p hp).2.2.2
    simp only [boundingRect, Rect.within]
    omega

/-- The ROI mask: the copy succeeds when the ROI is within the bounds of the
thresholded mask, keeps its size, and is zero outside the ROI. -/
theorem copyRoi_zeros (src : Mat) (roi : Rect) (h : src.roiInBounds roi = true) :
    ∃ m, copyRoi src (Mat.zeros src.rows src.cols) roi = some m ∧
      m.rows = src.rows ∧ m.cols = src.cols ∧
      ∀ row col, m.px row col = if roi.contains ⟨col, row⟩ then src.px row col else 0 := by
  have h2 : (Mat.zeros src.rows src.cols).roiInBounds roi = true := by
    simpa [Mat.roiInBounds, Mat.zeros] using h
  refine ⟨{ rows := src.rows, cols := src.cols, px := fun row col =>
      if roi.contains ⟨col, row⟩ then src.px row col else 0 }, ?_, rfl, rfl, fun _ _ => rfl⟩
  simp only [copyRoi, h, h2, Bool.and_self, if_true]
  rfl

/-- C6, as the claim states it, fails: after `--min-area nan`, with the ROI
within the bounds of the mask, three boxes are appended for `sampleFrame`,
though none of its three contours has an area `>=` the minimum area. -/
theorem box_kept_for_nan_minimum :
    (thresholdStage nanConfig sampleVision 0 sampleFrame).2.roiInBounds ⟨0, 1, 4, 3⟩ = true ∧
    (detect nanConfig sampleVision 0 ⟨0, 1, 4, 3⟩ sampleFrame).map
        (fun d => (d.motionBoxes,
          d.contours.map fun c => Double.ge (sampleVision.contourArea c)
            nanConfig.minContourArea))
      = some ([⟨1, 2, 1, 1⟩, ⟨2, 2, 1, 1⟩, ⟨3, 2, 1, 1⟩], [false, false, false]) := by
  decide

/-- C6, amended. For every thresholded mask, every effective ROI within the
bounds of the mask and every minimum area: the pipeline does produce its
result, the ROI mask is the thresholded mask inside the ROI and zero outside,
and each box appended to `motionBoxes` is the bounding rectangle of a contour
of the ROI mask whose area is not less than the minimum (the test
`area < minimum` fails), which is an area of at least the minimum when both
are numbers (not NaN); the box holds the contour's pixels, is minimal among
such rectangles, and lies entirely within the effective ROI. The assumption
on `cv::findContours` is that contours are non-empty sequences of non-zero
pixels of its input. -/
theorem motionBoxes_within_roi {σ : Type} (cfg : Config) (cv : Vision σ)
    (hcv : cv.ContoursOnForeground) (subtractor : σ) (roi : Rect) (frame : Mat)
    (hroi : (thresholdStage cfg cv subtractor frame).2.roiInBounds roi = true) :
    ∃ d, detect cfg cv subtractor roi frame = some d ∧
      d.thresholdMask = (thresholdStage cfg cv subtractor frame).2 ∧
      (∀ row col, d.roiMask.px row col =
        if roi.contains ⟨col, row⟩ then d.thresholdMask.px row col else 0) ∧
      d.contours = cv.findContours d.roiMask ∧
      ∀ box ∈ d.motionBoxes, ∃ c ∈ d.contours,
        Double.lt (cv.contourArea c) cfg.minContourArea = false ∧
        (cfg.minContourArea ≠ Double.nan → cv.contourArea c ≠ Double.nan →
          Double.ge (cv.contourArea c) cfg.minContourArea = true) ∧
        box = boundingRect c ∧
        (∀ p ∈ c, box.contains p) ∧
        (∀ r : Rect, (∀ p ∈ c, r.contains p) → box.within r) ∧
        box.within roi := by
  obtain ⟨m, hm, _, _, hpx⟩ := copyRoi_zeros _ roi hroi
  have hdet : detect cfg cv subtractor roi frame =
      some { subtractor := (thresholdStage cfg cv subtractor frame).1
             thresholdMask := (thresholdStage cfg cv subtractor frame).2
             roiMask := m
             contours := cv.findContours m
             motionBoxes := motionBoxes cv.contourArea cfg.minContourArea (cv.findContours m)
             motionDetected :=
               !(motionBoxes cv.contourArea cfg.minContourArea (cv.findContours m)).isEmpty } := by
    simp only [detect, hm]
  refine ⟨_, hdet, rfl, hpx, rfl, ?_⟩
  intro box hbox
  obtain ⟨c, hc, harea, hbc⟩ := (mem_motionBoxes _ _ box _).1 hbox
  obtain ⟨hne, hpts⟩ := hcv m c hc
  have hin : ∀ p ∈ c, roi.contains p := by
    intro p hp
    have hnz := (hpts p hp).2.2.2.2
    rw [hpx] at hnz
    by_contra hcon
    simp [hcon] at hnz
  refine ⟨c, hc, harea, fun hmin ha => (Double.ge_iff_not_lt _ _ ha hmin).2 harea, hbc,
    ?_, ?_, ?_⟩
  · intro p hp; rw [hbc]; exact boundingRect_contains c p hp
  · intro r hr; rw [hbc]; exact boundingRect_minimal c hne r hr
  · rw [hbc]; exact boundingRect_minimal c hne roi hin

/-! ## The effective ROI across the run -/

/-- The resolved ROI has positive extent and lies within the frame. -/
theorem resolveRoi_within_frame (R : Rect) (cols rows : Int) (hc : 0 < cols) (hr : 0 < rows) :
    0 < (resolveRoi R cols rows).width ∧ 0 < (resolveRoi R cols rows).height ∧
      (resolveRoi R cols rows).within (frameBounds cols rows) := by
  by_cases hR : R.width ≤ 0 ∨ R.height ≤ 0
  · have hE : resolveRoi R cols rows = frameBounds cols rows := by
      simp only [resolveRoi, if_pos hR]
    rw [hE]
    simp only [frameBounds, Rect.within]
    omega
  · by_cases hI : min (R.x + R.width) cols - max R.x 0 ≤ 0 ∨
        min (R.y + R.height) rows - max R.y 0 ≤ 0
    · have hE : resolveRoi R cols rows = frameBounds cols rows := by
        simp only [resolveRoi, if_neg hR, Rect.inter_frame, if_pos hI]
        simp [Rect.empty]
      rw [hE]
      simp only [frameBounds, Rect.within]
      omega
    · have hE : resolveRoi R cols rows = ⟨max R.x 0, max R.y 0,
          min (R.x + R.width) cols - max R.x 0, min (R.y + R.height) rows - max R.y 0⟩ := by
        simp only [resolveRoi, if_neg hR, Rect.inter_frame, if_neg hI]
        have h1 : ¬ (min (R.x + R.width) cols - max R.x 0 ≤ 0) := fun h => hI (Or.inl h)
        have h2 : ¬ (min (R.y + R.height) rows - max R.y 0 ≤ 0) := fun h => hI (Or.inr h)
        simp [Rect.empty, h1, h2]
      rw [hE]
      simp only [frameBounds, Rect.within]
      omega

theorem thresholdStage_size {σ : Type} (cfg : Config) (cv : Vision σ) (hk : cv.KeepsSize)
    (subtractor : σ) (frame : Mat) :
    (thresholdStage cfg cv subtractor frame).2.rows = frame.rows ∧
      (thresholdStage cfg cv subtractor frame).2.cols = frame.cols := by
  obtain ⟨h1, h2, h3, h4, h5, h6⟩ := hk
  simp only [thresholdStage]
  split_ifs <;> simp [h1, h2, h3, h4, h5, h6]

theorem detect_some_of_inBounds {σ : Type} (cfg : Config) (cv : Vision σ) (subtractor : σ)
    (roi : Rect) (frame : Mat)
    (hroi : (thresholdStage cfg cv subtractor frame).2.roiInBounds roi = true) :
    ∃ d, detect cfg cv subtractor roi frame = some d := by
  obtain ⟨m, hm, _⟩ := copyRoi_zeros _ roi hroi
  simp only [detect, hm]
  exact ⟨_, rfl⟩

/-- One iteration keeps the ROI invariant and raises no exception, when the
frame (after the resize step) has `C` columns and `R` rows. -/
theorem loopBody_roi_invariant {σ : Type} (cfg : Config) (cv : Vision σ) (tps : Int)
    (logOpen : Bool) (s : LoopState σ) (inp : FrameInput) (C R : Nat)
    (hk : cv.KeepsSize) (hC : 0 < C) (hR : 0 < R)
    (hdim : inp.frame.empty = false →
      (resizeStep cfg cv inp.frame).cols = C ∧ (resizeStep cfg cv inp.frame).rows = R)
    (hinv : s.roiInitialized = true → s.effectiveRoi = resolveRoi cfg.roi C R) :
    (loopBody cfg cv tps logOpen s inp).1 ≠ Flow.raised ∧
      ((loopBody cfg cv tps logOpen s inp).2.roiInitialized = true →
        (loopBody cfg cv tps logOpen s inp).2.effectiveRoi = resolveRoi cfg.roi C R) ∧
      (inp.frame.empty = false → (loopBody cfg cv tps logOpen s inp).2.roiInitialized = true) ∧
      (s.roiInitialized = true → (loopBody cfg cv tps logOpen s inp).2.roiInitialized = true) := by
  cases he : inp.frame.empty
  · obtain ⟨hc, hr⟩ := hdim he
    have hf := enterFrame_fields cfg cv s inp
    have hroi : (enterFrame cfg cv s inp).effectiveRoi = resolveRoi cfg.roi C R := by
      rw [hf.2.2.2.2.2.2.2]
      cases hi : s.roiInitialized
      · simp [hc, hr]
      · simp [hinv hi]
    have hinit := hf.2.2.2.2.2.2.1
    cases hskip : skipFrame cfg.frameSkip (wrapInt (s.frameIndex + 1))
    · have hw := resolveRoi_within_frame cfg.roi C R (by exact_mod_cast hC) (by exact_mod_cast hR)
      have hsz := thresholdStage_size cfg cv hk s.subtractor (resizeStep cfg cv inp.frame)
      have hb : (thresholdStage cfg cv s.subtractor (resizeStep cfg cv inp.frame)).2.roiInBounds
          (enterFrame cfg cv s inp).effectiveRoi = true := by
        rw [hroi]
        simp only [Mat.roiInBounds, hsz.1, hsz.2, hc, hr, decide_eq_true_eq]
        obtain ⟨w1, w2, w3⟩ := hw
        simp only [Rect.within, frameBounds] at w3
        omega
      obtain ⟨d, hd⟩ := detect_some_of_inBounds cfg cv _ _ _ hb
      rw [loopBody_processed cfg cv tps logOpen s inp d he hskip hd]
      refine ⟨?_, fun _ => hroi, fun _ => hinit, fun _ => hinit⟩
      simp only [keyFlow]
      split <;> simp
    · rw [loopBody_skipped cfg cv tps logOpen s inp he hskip]
      refine ⟨?_, fun _ => hroi, fun _ => hinit, fun _ => hinit⟩
      simp only [keyFlow]
      split <;> simp
  · rw [loopBody_empty cfg cv tps logOpen s inp he]
    exact ⟨by simp, hinv, by simp, fun h => h⟩

theorem loopTrace_roi_invariant {σ : Type} (cfg : Config) (cv : Vision σ) (tps : Int)
    (logOpen : Bool) (C R : Nat) (hk : cv.KeepsSize) (hC : 0 < C) (hR : 0 < R) :
    ∀ (frames : List FrameInput) (s : LoopState σ),
      (∀ inp ∈ frames, inp.frame.empty = false →
        (resizeStep cfg cv inp.frame).cols = C ∧ (resizeStep cfg cv inp.frame).rows = R) →
      (s.roiInitialized = true → s.effectiveRoi = resolveRoi cfg.roi C R) →
      ∀ r ∈ loopTrace cfg cv tps logOpen s frames,
        r.1 ≠ Flow.raised ∧
        (r.2.roiInitialized = true → r.2.effectiveRoi = resolveRoi cfg.roi C R) ∧
        (s.roiInitialized = true → r.2.roiInitialized = true) := by
  intro frames
  induction frames with
  | nil => intro s _ _ r hr; simp [loopTrace] at hr
  | cons inp rest ih =>
    intro s hdim hinv r hr
    have hstep := loopBody_roi_invariant cfg cv tps logOpen s inp C R hk hC hR
      (hdim inp (by simp)) hinv
    have hrest : ∀ i ∈ rest, i.frame.empty = false →
        (resizeStep cfg cv i.frame).cols = C ∧ (resizeStep cfg cv i.frame).rows = R :=
      fun i hi => hdim i (by simp [hi])
    simp only [loopTrace] at hr
    split at hr
    · rcases List.mem_cons.1 hr with h | h
      · subst h
        exact ⟨hstep.1, hstep.2.1, hstep.2.2.2⟩
      · have := ih _ hrest hstep.2.1 r h
        exact ⟨this.1, this.2.1, fun hs => this.2.2 (hstep.2.2.2 hs)⟩
    · simp only [List.mem_singleton] at hr
      subst hr
      exact ⟨hstep.1, hstep.2.1, hstep.2.2.2⟩

/-- C7. In a run whose frames all have the size of the first frame (`C`
columns by `R` rows after the resize step, both positive; the image
operations keep the size), after every loop iteration: once initialised, the
effective ROI is the rectangle computed from the first frame's size, has
positive width and height and lies within the frame bounds `(0, 0, C, R)`;
the sub-rectangle access of the ROI mask never raises; and the ROI is
initialised from the first non-empty frame on. -/
theorem effectiveRoi_invariant {σ : Type} (cfg : Config) (cv : Vision σ) (tps : Int)
    (logOpen : Bool) (subtractor : σ) (frames : List FrameInput) (C R : Nat)
    (hk : cv.KeepsSize) (hC : 0 < C) (hR : 0 < R)
    (hdim : ∀ inp ∈ frames, inp.frame.empty = false →
      (resizeStep cfg cv inp.frame).cols = C ∧ (resizeStep cfg cv inp.frame).rows = R) :
    ∀ r ∈ loopTrace cfg cv tps logOpen (LoopState.init subtractor) frames,
      r.1 ≠ Flow.raised ∧
      (r.2.roiInitialized = true →
        r.2.effectiveRoi = resolveRoi cfg.roi C R ∧
        0 < r.2.effectiveRoi.width ∧ 0 < r.2.effectiveRoi.height ∧
        r.2.effectiveRoi.within (frameBounds C R)) ∧
      ((∃ inp rest, frames = inp :: rest ∧ inp.frame.empty = false) →
        r.2.roiInitialized = true) := by
  intro r hr
  have hw := resolveRoi_within_frame cfg.roi C R (by exact_mod_cast hC) (by exact_mod_cast hR)
  have hinit : (LoopState.init subtractor).roiInitialized = true →
      (LoopState.init subtractor).effectiveRoi = resolveRoi cfg.roi C R := by
    intro h; simp [LoopState.init] at h
  have hall := loopTrace_roi_invariant cfg cv tps logOpen C R hk hC hR frames _ hdim hinit r hr
  refine ⟨hall.1, fun h => ?_, ?_⟩
  · have he := hall.2.1 h
    rw [he]
    exact ⟨rfl, hw⟩
  · rintro ⟨inp, rest, hfr, hne⟩
    subst hfr
    have hstep := loopBody_roi_invariant cfg cv tps logOpen (LoopState.init subtractor) inp C R
      hk hC hR (hdim inp (by simp)) hinit
    have hrest : ∀ i ∈ rest, i.frame.empty = false →
        (resizeStep cfg cv i.frame).cols = C ∧ (resizeStep cfg cv i.frame).rows = R :=
      fun i hi => hdim i (by simp [hi])
    simp only [loopTrace] at hr
    split at hr
    · rcases List.mem_cons.1 hr with h | h
      · subst h
        exact hstep.2.2.1 hne
      · exact (loopTrace_roi_invariant cfg cv tps logOpen C R hk hC hR rest _ hrest
          hstep.2.1 r h).2.2 (hstep.2.2.1 hne)
    · simp only [List.mem_singleton] at hr
      subst hr
      exact hstep.2.2.1 hne

/-! ## Witnesses on the concrete instance -/

theorem sampleVision_keepsSize : sampleVision.KeepsSize := by
  simp [Vision.KeepsSize, sampleVision]

theorem sampleVision_contours : sampleVision.ContoursOnForeground := by
  intro m c hc
  simp only [sampleVision, List.mem_flatMap, List.mem_filterMap, List.mem_range] at hc
  obtain ⟨r, hr, col, hcol, h⟩ := hc
  split at h
  · rename_i hpx
    simp only [Option.some.injEq] at h
    subst h
    refine ⟨by simp, ?_⟩
    intro p hp
    simp only [List.mem_singleton] at hp
    subst hp
    refine ⟨?_, ?_, ?_, ?_, hpx⟩
    · show (0 : Int) ≤ (col : Int)
      omega
    · show (col : Int) < (m.cols : Int)
      omega
    · show (0 : Int) ≤ (r : Int)
      omega
    · show (r : Int) < (m.rows : Int)
      omega
  · cases h

theorem first_snapshot_fires_witness :
    (throttleRun true 1000000000 0
      ([(false, 1200000000)] ++ (true, 1500000000) :: []))[[(false, (1200000000 : Int))].length]?
        = some true ∧
      snapshotDecision true 1000000000 true 1500000000 0 = (true, 1500000000) :=
  first_snapshot_fires 1000000000 (by decide) 1500000000 (by decide) (by decide)
    [(false, 1200000000)] [] (by decide)

theorem skipped_frame_invisible_witness :
    skipFrame sampleConfig.frameSkip (wrapInt ((LoopState.init 0).frameIndex + 1)) = true ∧
      (loopBody sampleConfig sampleVision 1000000000 true (LoopState.init 0)
        sampleInput).2.subtractor = (LoopState.init 0).subtractor :=
  ⟨by decide, (skipped_frame_invisible sampleConfig sampleVision 1000000000 true
    (LoopState.init 0) sampleInput (by decide) (by decide)).2.1⟩

theorem motion_verdict_iff_witness :
    sampleConfig.minContourArea ≠ Double.nan ∧
    ((loopBody sampleConfig sampleVision 1000000000 true sampleState
        sampleInput).2.motionDetected = true ↔
      ∃ c ∈ ((detect sampleConfig sampleVision sampleState.subtractor
          (enterFrame sampleConfig sampleVision sampleState sampleInput).effectiveRoi
          (resizeStep sampleConfig sampleVision sampleInput.frame)).get (by decide)).contours,
        Double.ge (sampleVision.contourArea c) sampleConfig.minContourArea = true) :=
  ⟨by decide,
    (motion_verdict_iff sampleConfig sampleVision 1000000000 true sampleState sampleInput
      ((detect sampleConfig sampleVision sampleState.subtractor
        (enterFrame sampleConfig sampleVision sampleState sampleInput).effectiveRoi
        (resizeStep sampleConfig sampleVision sampleInput.frame)).get (by decide))
      (by decide) (by decide) (by simp)).2.2.2.2 (by decide)
      (fun c _ => by simp [sampleVision])⟩

theorem motionBoxes_within_roi_witness :
    (thresholdStage sampleConfig sampleVision 0 sampleFrame).2.roiInBounds ⟨0, 1, 4, 3⟩ = true ∧
      ∃ d, detect sampleConfig sampleVision 0 ⟨0, 1, 4, 3⟩ sampleFrame = some d ∧
        ∀ box ∈ d.motionBoxes, box.within ⟨0, 1, 4, 3⟩ :=
  ⟨by decide,
    let ⟨d, h1, _, _, _, h5⟩ := motionBoxes_within_roi sampleConfig sampleVision
      sampleVision_contours 0 ⟨0, 1, 4, 3⟩ sampleFrame (by decide)
    ⟨d, h1, fun box hb => let ⟨_, _, _, _, _, _, _, hw⟩ := h5 box hb; hw⟩⟩

theorem effectiveRoi_invariant_witness :
    (loopBody sampleConfig sampleVision 1000000000 true (LoopState.init 0)
        sampleInput).2.roiInitialized = true ∧
      (loopBody sampleConfig sampleVision 1000000000 true (LoopState.init 0)
        sampleInput).2.effectiveRoi = ⟨0, 1, 4, 3⟩ ∧
      (loopBody sampleConfig sampleVision 1000000000 true (LoopState.init 0)
        sampleInput).2.effectiveRoi.within (frameBounds 8 6) :=
  have h := effectiveRoi_invariant sampleConfig sampleVision 1000000000 true 0
    [sampleInput, sampleInput, sampleInput] 8 6 sampleVision_keepsSize (by decide) (by decide)
    (by decide)
    (loopBody sampleConfig sampleVision 1000000000 true (LoopState.init 0) sampleInput)
    (by decide)
  ⟨by decide, by decide, ((h.2.1 (by decide)).2.2.2)⟩

end MotionDetection
